import Mathlib

/-! # BigInt (varungupta/BigInt, `BigInt.cpp`): a shallow embedding

`class BigInt` stores a signed integer as `long long content[MAX]` (base-10^9
buckets, least significant first), a `short sign` and an `unsigned short length`.
Every member function of the class is translated below.  Conventions:

* machine arithmetic is on `Int` with an explicit two's-complement wrap
  (`wrapLL`, `wrapI32`, `wrapShort`) and `% 65536` for the `unsigned short`;
* `/` and `%` of C++ truncate towards zero: `Int.tdiv`, `Int.tmod`;
* an access to `content[i]` with `i` outside the array is undefined behaviour; it is
  the fault `outOfBounds`, so every function returns in `Except Fault`;
* `operator +` and `operator -` call each other; the embedding carries a call budget
  (`fuel`) and reports `noFuel` when it is used up;
* a non-`const` member function can change `*this`; `operator +` does
  (`content[length ++]`), so `+` and `-` return an `Outcome`, the object after the call
  together with the returned object;
* `operator =` has no `return` statement; its (discarded) result is not modelled, only
  its three assignments are.
-/

/-- Max. number of buckets (`#define MAX 20`). -/
def MAX : Nat := 20

/-- One more than the highest number of a bucket (`#define BUCKET_LIMIT 1000000000`). -/
def BUCKET_LIMIT : Int := 1000000000

/-- Max. number of digits in one bucket (`#define BUCKET_NUM_DIGITS 9`). -/
def BUCKET_NUM_DIGITS : Int := 9

/-- The ways in which a call leaves the defined behaviour of the program. -/
inductive Fault where
  /-- an access to `content[i]` with `i` outside `0 .. MAX-1` -/
  | outOfBounds
  /-- control reaches the end of a value-returning function whose result is used -/
  | noReturn
  /-- `std::out_of_range` thrown by `string::substr` -/
  | outOfRange
  /-- the call budget of the embedding is used up (unbounded recursion or loop) -/
  | noFuel
  deriving DecidableEq, Repr

instance instDecidableEqExcept {ε α : Type} [DecidableEq ε] [DecidableEq α] :
    DecidableEq (Except ε α) := fun x y =>
  match x, y with
  | .ok a, .ok b =>
    if h : a = b then isTrue (congrArg Except.ok h)
    else isFalse (fun h2 => h (Except.ok.inj h2))
  | .error a, .error b =>
    if h : a = b then isTrue (congrArg Except.error h)
    else isFalse (fun h2 => h (Except.error.inj h2))
  | .ok _, .error _ => isFalse (fun h => Except.noConfusion h)
  | .error _, .ok _ => isFalse (fun h => Except.noConfusion h)

/-- Two's-complement wrap of a `long long` result (64 bits). -/
def wrapLL (x : Int) : Int := (x + 2 ^ 63) % 2 ^ 64 - 2 ^ 63

/-- Two's-complement wrap of an `int` result (32 bits). -/
def wrapI32 (x : Int) : Int := (x + 2 ^ 31) % 2 ^ 32 - 2 ^ 31

/-- Two's-complement wrap of a `short` result (16 bits). -/
def wrapShort (x : Int) : Int := (x + 2 ^ 15) % 2 ^ 16 - 2 ^ 15

/-- Wrap of an `unsigned short` result (16 bits). -/
def wrapUShort (x : Nat) : Nat := x % 65536

/-- The class `BigInt`: its three data members. -/
structure BigInt where
  /-- `long long content[MAX]`: buckets holding the number, least significant first -/
  content : List Int
  /-- `short sign`: -1/0/1 -/
  sign : Int
  /-- `unsigned short length`: number of buckets utilized -/
  length : Nat
  deriving DecidableEq, Repr

/-- The result of a call of a non-`const` member function. -/
structure Outcome where
  /-- the object `*this` after the call -/
  self : BigInt
  /-- the returned object -/
  ret : BigInt
  deriving DecidableEq, Repr

/-- Read `c[i]`. -/
def rd (c : List Int) (i : Nat) : Except Fault Int :=
  match c.get? i with
  | some v => .ok v
  | none => .error .outOfBounds

/-- Write `c[i] = v`. -/
def wr (c : List Int) (i : Nat) (v : Int) : Except Fault (List Int) :=
  if i < c.length then .ok (c.set i v) else .error .outOfBounds

/-- The effect of `memset(content + from, 0, (MAX - from) * sizeof(long long))`. -/
def memsetFrom (c : List Int) (start : Nat) : Except Fault (List Int) :=
  if start ≤ c.length then .ok (c.take start ++ List.replicate (c.length - start) 0)
  else .error .outOfBounds

/-- The array after `memset(content, 0, sizeof(content))`. -/
def zeroContent : List Int := List.replicate MAX 0

namespace BigInt

/-- The default constructor `BigInt ()`. -/
def empty : BigInt := ⟨zeroContent, 0, 0⟩

/-- The loop `for (int i = 0; n > 0; n /= BUCKET_LIMIT)` of `BigInt (long long)`;
the first argument bounds the number of iterations. -/
def ofLongLongLoop : Nat → Int → Nat → List Int → Nat → Except Fault (List Int × Nat)
  | 0, n, _, c, len => if n > 0 then .error .noFuel else .ok (c, len)
  | k + 1, n, i, c, len =>
    if n > 0 then do
      let len := wrapUShort (len + 1)
      let c ← wr c i (n.tmod BUCKET_LIMIT)
      ofLongLongLoop k (n.tdiv BUCKET_LIMIT) (i + 1) c len
    else .ok (c, len)

/-- The constructor `BigInt (long long n)`.  A `long long` has 64 bits, so 64
iterations of the loop are allowed (each one divides `n` by 10^9).  Every bucket is
written by the loop or by the final `memset`, so what the array held before does not
matter; it is taken as zeroed. -/
def ofLongLong (n : Int) : Except Fault BigInt :=
  if n = 0 then do
    let c ← memsetFrom zeroContent 0
    .ok ⟨c, 0, 0⟩
  else do
    let sign : Int := if n > 0 then 1 else -1
    let n := if n < 0 then wrapLL (0 - n) else n
    let (c, len) ← ofLongLongLoop 64 n 0 zeroContent 0
    let c ← memsetFrom c len
    .ok ⟨c, sign, len⟩

/-- The loop `for (int i = length + num - 1; i >= 0; i --)` of `addLSBucket`; the
first argument is `i + 1`. -/
def addLSBucketLoop (num : Nat) : Nat → List Int → Except Fault (List Int)
  | 0, c => .ok c
  | i + 1, c => do
    let v ← if (i : Int) > (num : Int) - 1 then rd c (i - num) else .ok 0
    let c ← wr c i v
    addLSBucketLoop num i c

/-- The method `void addLSBucket (int numBucketsToBeAdded)`, for a non-negative
argument (its only caller passes the loop index `i >= 1`); the result is the object
after the call. -/
def addLSBucket (self : BigInt) (num : Nat) : Except Fault BigInt :=
  if self.length + num > MAX then .ok self
  else do
    let c ← addLSBucketLoop num (self.length + num) self.content
    .ok ⟨c, self.sign, wrapUShort (self.length + num)⟩

/-- What `s << x` writes for a `long long x`: the decimal numeral, `-` first when
negative. -/
def putLL (x : Int) : String :=
  if x < 0 then "-" ++ Nat.repr x.natAbs else Nat.repr x.toNat

/-- The loop `for (int i = length - 2; i >= 0; i --)` of `toString` with its chain of
`if (content[i] < 10) ... else if (content[i] < 100) ...`; the first argument is
`i + 1`. -/
def toStringLoop (c : List Int) : Nat → String → Except Fault String
  | 0, s => .ok s
  | i + 1, s => do
    let x ← rd c i
    let s :=
      if x < 10 then s ++ "00000000" ++ putLL x
      else if x < 100 then s ++ "0000000" ++ putLL x
      else if x < 1000 then s ++ "000000" ++ putLL x
      else if x < 10000 then s ++ "00000" ++ putLL x
      else if x < 100000 then s ++ "0000" ++ putLL x
      else if x < 1000000 then s ++ "000" ++ putLL x
      else if x < 10000000 then s ++ "00" ++ putLL x
      else if x < 100000000 then s ++ "0" ++ putLL x
      else s ++ putLL x
    toStringLoop c i s

/-- The method `string toString (void)`. -/
def toString (self : BigInt) : Except Fault String :=
  if self.length = 0 then .ok "0"
  else do
    let s := if self.sign = -1 then "-" else ""
    let top ← rd self.content (self.length - 1)
    toStringLoop self.content (self.length - 1) (s ++ putLL top)

/-- The loop of `operator ==`: `for (int i = 0; i < length; i ++)`; the first argument
is the number of iterations left. -/
def eqLoop (a b : List Int) : Nat → Nat → Except Fault Bool
  | 0, _ => .ok true
  | k + 1, i => do
    let x ← rd a i
    let y ← rd b i
    if x ≠ y then .ok false else eqLoop a b k (i + 1)

/-- The operator `bool operator == (BigInt n)`. -/
def opEq (self n : BigInt) : Except Fault Bool :=
  if self.sign ≠ n.sign then .ok false
  else if self.length ≠ n.length then .ok false
  else eqLoop self.content n.content self.length 0

/-- The operator `bool operator != (BigInt n)`. -/
def opNe (self n : BigInt) : Except Fault Bool := do
  let r ← opEq self n
  .ok (!r)

/-- The two loops of `operator <`: `for (int i = 0; i < length; i ++)`, returning
`onLess` at the first `content[i] < n.content[i]`, its negation at the first
`content[i] > n.content[i]`, and `false` after the loop (`onLess` is `true` in the
branch `sign == 1` and `false` in the branch `sign == -1`). -/
def ltLoop (a b : List Int) (onLess : Bool) : Nat → Nat → Except Fault Bool
  | 0, _ => .ok false
  | k + 1, i => do
    let x ← rd a i
    let y ← rd b i
    if x < y then .ok onLess
    else if x > y then .ok (!onLess)
    else ltLoop a b onLess k (i + 1)

/-- The operator `bool operator < (BigInt n)`.  When no branch of the chain is
taken the function ends without a `return`. -/
def opLt (self n : BigInt) : Except Fault Bool :=
  if self.sign < n.sign then .ok true
  else if self.sign > n.sign then .ok false
  else if self.sign = 0 then .ok false
  else if self.sign = 1 ∧ self.length < n.length then .ok true
  else if self.sign = 1 ∧ self.length > n.length then .ok false
  else if self.sign = 1 ∧ self.length = n.length then
    ltLoop self.content n.content true self.length 0
  else if self.sign = -1 ∧ self.length < n.length then .ok false
  else if self.sign = -1 ∧ self.length > n.length then .ok true
  else if self.sign = -1 ∧ self.length = n.length then
    ltLoop self.content n.content false self.length 0
  else .error .noReturn

/-- The operator `bool operator <= (BigInt n)`: `operator < (n) || operator == (n)`. -/
def opLe (self n : BigInt) : Except Fault Bool := do
  let l ← opLt self n
  if l then .ok true else opEq self n

/-- The operator `bool operator > (BigInt n)`. -/
def opGt (self n : BigInt) : Except Fault Bool := do
  let r ← opLe self n
  .ok (!r)

/-- The operator `bool operator >= (BigInt n)`. -/
def opGe (self n : BigInt) : Except Fault Bool := do
  let r ← opLt self n
  .ok (!r)

/-- The loop of the same-sign branch of `operator +`:
`for (int i = 0; i < num.length; i ++)`; the first argument is the number of
iterations left, the result is `num.content` and the last `carry`. -/
def addLoop (a b : List Int) : Nat → Nat → List Int → Int → Except Fault (List Int × Int)
  | 0, _, out, carry => .ok (out, carry)
  | k + 1, i, out, carry => do
    let x ← rd a i
    let y ← rd b i
    let bucketSum := wrapLL (wrapLL (x + y) + carry)
    let out ← wr out i (bucketSum.tmod BUCKET_LIMIT)
    addLoop a b k (i + 1) out (bucketSum.tdiv BUCKET_LIMIT)

/-- The loop of the branch `*this > n` of `operator -`, on `minuend.content`, with
`sub = n.content`; the first argument is the number of iterations left, the result is
`minuend.content` and `hasZeroValue`. -/
def subLoop (sub : List Int) : Nat → Nat → List Int → Bool → Except Fault (List Int × Bool)
  | 0, _, m, hasZeroValue => .ok (m, hasZeroValue)
  | k + 1, i, m, hasZeroValue => do
    let mi ← rd m i
    let ni ← rd sub i
    let m ←
      if mi ≥ ni then wr m i (wrapLL (mi - ni))
      else do
        let m ← wr m i (wrapLL (wrapLL (10 * mi) - ni))
        let next ← rd m (i + 1)
        wr m (i + 1) (wrapLL (next - 1))
    let cur ← rd m i
    let hasZeroValue := if hasZeroValue && cur != 0 then false else hasZeroValue
    subLoop sub k (i + 1) m hasZeroValue

/-- The loop of the other branch of `operator -`, on `minuend.content` (a copy of
`n.content`): here the borrow case reads `n.content[i]` (`orig`), not
`minuend.content[i]`, and `sub` is `content` of `*this`. -/
def subLoopSwapped (orig sub : List Int) :
    Nat → Nat → List Int → Bool → Except Fault (List Int × Bool)
  | 0, _, m, hasZeroValue => .ok (m, hasZeroValue)
  | k + 1, i, m, hasZeroValue => do
    let mi ← rd m i
    let ti ← rd sub i
    let m ←
      if mi ≥ ti then wr m i (wrapLL (mi - ti))
      else do
        let ni ← rd orig i
        let m ← wr m i (wrapLL (wrapLL (10 * ni) - ti))
        let next ← rd m (i + 1)
        wr m (i + 1) (wrapLL (next - 1))
    let cur ← rd m i
    let hasZeroValue := if hasZeroValue && cur != 0 then false else hasZeroValue
    subLoopSwapped orig sub k (i + 1) m hasZeroValue

/-- The branch `sign == n.sign` of `operator -`. -/
def subSameSign (self n : BigInt) : Except Fault BigInt :=
  -- `if (length == 0)` only builds a local `subtrahend` that is never used
  if self.length ≠ 0 ∧ n.length = 0 then .ok self
  else do
    let gt ← opGt self n
    if gt then do
      let (m, hasZeroValue) ← subLoop n.content self.length 0 self.content true
      if hasZeroValue then ofLongLong 0 else .ok ⟨m, self.sign, self.length⟩
    else do
      let (m, hasZeroValue) ← subLoopSwapped n.content self.content n.length 0 n.content true
      if hasZeroValue then ofLongLong 0
      else .ok ⟨m, wrapShort (n.sign * -1), n.length⟩

mutual

/-- The operator `BigInt operator + (BigInt n)`.  In the same-sign branch the final
carry is stored by `num.content[length ++] = carry`, where `length` is the member of
`*this`. -/
def opAdd : Nat → BigInt → BigInt → Except Fault Outcome
  | 0, _, _ => .error .noFuel
  | fuel + 1, self, n =>
    if self.length = 0 then .ok ⟨self, n⟩
    else if n.length = 0 then .ok ⟨self, self⟩
    else if self.sign = n.sign then do
      let numLength := if self.length > n.length then self.length else n.length
      let (c, carry) ← addLoop self.content n.content numLength 0 zeroContent 0
      if carry > 0 then do
        let c ← wr c self.length carry
        .ok ⟨⟨self.content, self.sign, wrapUShort (self.length + 1)⟩, ⟨c, self.sign, numLength⟩⟩
      else .ok ⟨self, ⟨c, self.sign, numLength⟩⟩
    else if self.sign = -1 then do
      -- `num = (*this); num.sign = 1; return n - num;` (`n` is the by-value parameter)
      let r ← opSub fuel n ⟨self.content, 1, self.length⟩
      .ok ⟨self, r.ret⟩
    else do
      -- `num = n; num.sign = 1; return (*this) - num;`
      opSub fuel self ⟨n.content, 1, n.length⟩

/-- The operator `BigInt operator - (BigInt n)`.  In the different-sign branch the
condition `n.sign = -1` is an assignment (always true), so `subtrahend.sign = 1`. -/
def opSub : Nat → BigInt → BigInt → Except Fault Outcome
  | 0, _, _ => .error .noFuel
  | fuel + 1, self, n =>
    if self.sign = n.sign then do
      let r ← subSameSign self n
      .ok ⟨self, r⟩
    else opAdd fuel self ⟨n.content, 1, n.length⟩

end

/-- The loop of `operator * (int)`: `for (int i = 0; i < length; i ++)`; the first
argument is the number of iterations left, the result is `num.content` and `carry`. -/
def mulLoop (n : Int) : Nat → Nat → List Int → Int → Except Fault (List Int × Int)
  | 0, _, c, carry => .ok (c, carry)
  | k + 1, i, c, carry => do
    let x ← rd c i
    let tempProduct := wrapLL (x * n)
    let c ← wr c i ((wrapLL (tempProduct + carry)).tmod BUCKET_LIMIT)
    mulLoop n k (i + 1) c ((wrapLL (tempProduct + carry)).tdiv BUCKET_LIMIT)

/-- The operator `BigInt operator * (int n)`. -/
def opMulInt (self : BigInt) (n : Int) : Except Fault BigInt :=
  if n = 0 ∨ self.length = 0 then ofLongLong 0
  else do
    let sign : Int := if (n > 0 ∧ self.sign = 1) ∨ (n < 0 ∧ self.sign = -1) then 1 else -1
    let n := if n < 0 then wrapI32 (n * -1) else n
    let (c, carry) ← mulLoop n self.length 0 self.content 0
    if carry > 0 then do
      let c ← wr c self.length carry
      .ok ⟨c, sign, wrapUShort (self.length + 1)⟩
    else .ok ⟨c, sign, self.length⟩

/-- The loop of `operator * (BigInt)`: `for (int i = 1; i < length; i ++)`; the first
argument is the number of iterations left.  `n * content[i]` is `operator * (int)`
(the `long long` bucket converts to `int`), and `rs = rs + temp` keeps only the
returned object. -/
def opMulLoop (fuel : Nat) (self n : BigInt) : Nat → Nat → BigInt → Except Fault BigInt
  | 0, _, rs => .ok rs
  | k + 1, i, rs => do
    let x ← rd self.content i
    let temp ← opMulInt n (wrapI32 x)
    let temp ← addLSBucket temp i
    let r ← opAdd fuel rs temp
    opMulLoop fuel self n k (i + 1) r.ret

/-- The operator `BigInt operator * (BigInt n)`; `fuel` is the call budget of each
`rs + temp`. -/
def opMul (fuel : Nat) (self n : BigInt) : Except Fault BigInt := do
  let x ← rd self.content 0
  let rs ← opMulInt n (wrapI32 x)
  let rs ← opMulLoop fuel self n (self.length - 1) 1 rs
  .ok ⟨rs.content, if self.sign = n.sign then 1 else -1, rs.length⟩

/-- A `std::stringstream`: the characters written and not yet read, and whether the
stream state is `good ()`. -/
structure SStream where
  /-- characters inserted and not yet extracted -/
  buf : List Char
  /-- neither `failbit` nor `eofbit` is set -/
  good : Bool
  deriving DecidableEq, Repr

namespace SStream

/-- A fresh `stringstream s;`. -/
def fresh : SStream := ⟨[], true⟩

/-- The insertion `s << str`: it appends unless the state is not good. -/
def put (s : SStream) (str : List Char) : SStream :=
  if s.good then ⟨s.buf ++ str, true⟩ else s

/-- The call `s.clear ()`. -/
def clear (s : SStream) : SStream := ⟨s.buf, true⟩

/-- The predicate `isspace` of the "C" locale: space, `\t`, `\n`, `\v`, `\f`, `\r`. -/
def isSpace (c : Char) : Bool :=
  c = Char.ofNat 32 || c = Char.ofNat 9 || c = Char.ofNat 10 || c = Char.ofNat 11 ||
    c = Char.ofNat 12 || c = Char.ofNat 13

/-- The value of a run of decimal digits. -/
def digitsValue (ds : List Char) : Int :=
  ds.foldl (fun acc c => acc * 10 + ((c.toNat : Int) - 48)) 0

/-- The extraction `s >> x` for a `long long x`: the stream after it and the value
stored in `x`, `none` when `x` is left as it was.  When the state is not good, or only
white space is left, nothing is stored.  Otherwise an optional sign and the longest run
of digits are read; with no digit `0` is stored and the extraction fails, a value out
of range is replaced by the nearest `long long`, and reading up to the end of the
buffer sets `eofbit`. -/
def getLL (s : SStream) : SStream × Option Int :=
  if !s.good then (s, none)
  else
    let b := s.buf.dropWhile isSpace
    if b.isEmpty then (⟨[], false⟩, none)
    else
      let neg := b.head? = some '-'
      let b1 := if b.head? = some '-' ∨ b.head? = some '+' then b.tail else b
      let ds := b1.takeWhile Char.isDigit
      let rest := b1.dropWhile Char.isDigit
      if ds.isEmpty then (⟨rest, false⟩, some 0)
      else
        let v := if neg then - digitsValue ds else digitsValue ds
        if v > 2 ^ 63 - 1 then (⟨rest, false⟩, some (2 ^ 63 - 1))
        else if v < - 2 ^ 63 then (⟨rest, false⟩, some (- 2 ^ 63))
        else (⟨rest, !rest.isEmpty⟩, some v)

end SStream

/-- The call `n.substr (pos, count)`: `out_of_range` when `pos > n.size ()`; a negative
`count` converts to a huge `size_t` and so takes the rest of the string. -/
def substr (n : List Char) (pos : Int) (count : Int) : Except Fault (List Char) :=
  if pos < 0 ∨ pos > n.length then .error .outOfRange
  else if count < 0 then .ok (n.drop pos.toNat)
  else .ok ((n.drop pos.toNat).take count.toNat)

/-- The statement `s >> content[length ++]`: the extraction binds the bucket
`content[length]`, stores into it (or leaves it as it was), and `length` is incremented. -/
def extractBucket (s : SStream) (c : List Int) (length : Nat) :
    Except Fault (SStream × List Int × Nat) := do
  let old ← rd c length
  let (s, v) := s.getLL
  let c ← wr c length (v.getD old)
  .ok (s, c, wrapUShort (length + 1))

/-- The loop `for (i = n.size () - BUCKET_NUM_DIGITS; i >= posFirstDigit; i -= 9)` of
`BigInt (string)`; the first argument bounds the number of iterations, the result is
`i`, the stream, `content` and `length` after the loop. -/
def ofStringLoop (n : List Char) (posFirstDigit : Int) :
    Nat → Int → SStream → List Int → Nat → Except Fault (Int × SStream × List Int × Nat)
  | 0, i, s, c, length =>
    if i ≥ posFirstDigit then .error .noFuel else .ok (i, s, c, length)
  | k + 1, i, s, c, length =>
    if i ≥ posFirstDigit then do
      let chunk ← substr n i BUCKET_NUM_DIGITS
      let s := s.put chunk
      let (s, c, length) ← extractBucket s c length
      let s := s.clear
      ofStringLoop n posFirstDigit k (wrapI32 (i - 9)) s c length
    else .ok (i, s, c, length)

/-- The constructor `BigInt (string n)`.  In its `else` branch `content` is not
initialised before the extractions: `uninit` is what the array holds at that point.
`n[0]` of an empty string is the terminating `'\0'`.  The loop runs at most
`n.size ()` times. -/
def ofString (uninit : List Int) (n : String) : Except Fault BigInt :=
  let n := n.data
  if n.headD (Char.ofNat 0) = '0' then .ok ⟨zeroContent, 0, 0⟩
  else do
    let sign : Int := if n.headD (Char.ofNat 0) = '-' then -1 else 1
    let posFirstDigit : Int := if n.headD (Char.ofNat 0) = '-' then 1 else 0
    let i0 := wrapI32 ((n.length : Int) - BUCKET_NUM_DIGITS)
    let (i, s, c, length) ← ofStringLoop n posFirstDigit n.length i0 SStream.fresh uninit 0
    let (c, length) ←
      if i < posFirstDigit then do
        let chunk ← substr n posFirstDigit (BUCKET_NUM_DIGITS - posFirstDigit + i)
        let s := s.put chunk
        let (_, c, length) ← extractBucket s c length
        pure (c, length)
      else pure (c, length)
    let c ← memsetFrom c length
    .ok ⟨c, sign, length⟩

end BigInt

/-! ## The vocabulary of the specification -/

/-- The sum over `i < len` of `c[i] * 10^(9 i)`. -/
def magnitude (c : List Int) : Nat → Int
  | 0 => 0
  | k + 1 => magnitude c k + c.getD k 0 * 10 ^ (9 * k)

/-- The integer a `BigInt` stands for: `sign` times the sum of its used buckets. -/
def value (a : BigInt) : Int := a.sign * magnitude a.content a.length

/-- A valid BigNumber: the array has `MAX` buckets of which at most `MAX` are used, the
sign is -1, 0 or 1 and is 0 exactly when no bucket is used, every used bucket is in
`[0, 10^9)`, the top used bucket is non-zero and the unused buckets are zero. -/
def Valid (a : BigInt) : Prop :=
  a.content.length = MAX ∧ a.length ≤ MAX ∧
  (a.sign = -1 ∨ a.sign = 0 ∨ a.sign = 1) ∧ (a.sign = 0 ↔ a.length = 0) ∧
  (∀ i < a.length, 0 ≤ a.content.getD i 0 ∧ a.content.getD i 0 < BUCKET_LIMIT) ∧
  (a.length ≠ 0 → a.content.getD (a.length - 1) 0 ≠ 0) ∧
  (∀ i < MAX, a.length ≤ i → a.content.getD i 0 = 0)

instance instDecidableValid (a : BigInt) : Decidable (Valid a) := by
  unfold Valid; infer_instance

/-- The BigNumber `b` with its sign flipped (zero stays zero). -/
def neg (b : BigInt) : BigInt := ⟨b.content, - b.sign, b.length⟩

/-- The array `content` of a `BigInt (string)` under construction before anything is
stored in it: bucket `i` holds the arbitrary `u i`. -/
def uninitOf (u : Nat → Int) : List Int := (List.range MAX).map u

/-- The value of a decimal digit character. -/
def digitVal (c : Char) : Nat := c.toNat - 48

/-- The number a run of digits denotes, most significant digit first. -/
def digitsVal (ds : List Char) : Nat := ds.foldl (fun acc c => acc * 10 + digitVal c) 0

/-- Reading a non-empty run of decimal digits; anything else is rejected. -/
def parseDigits (ds : List Char) : Option Nat :=
  if ds ≠ [] ∧ ds.all Char.isDigit then some (digitsVal ds) else none

/-- Reading a decimal numeral: an optional `-` and a non-empty run of digits. -/
def parseDecimal (s : String) : Option Int :=
  if s.data.head? = some '-' then (parseDigits s.data.tail).map (fun (n : Nat) => - (n : Int))
  else (parseDigits s.data).map (fun (n : Nat) => (n : Int))

/-- A bucket written with exactly 9 digits: its numeral, zero-padded on the left. -/
def pad9 (g : Nat) : String :=
  String.mk (List.replicate (9 - (Nat.repr g).length) '0') ++ Nat.repr g

/-- The buckets `k-1, ..., 0` of `c`, each written with `pad9`, most significant first. -/
def lowerGroups (c : List Int) : Nat → String
  | 0 => ""
  | k + 1 => pad9 (c.getD k 0).toNat ++ lowerGroups c k

/-- The canonical decimal numeral of the specification: `0` for zero, otherwise an
optional `-` (present iff `sign = -1`), the top bucket without leading zeros and every
lower bucket with exactly 9 digits. -/
def canonicalNumeral (a : BigInt) : String :=
  if a.length = 0 then "0"
  else (if a.sign = -1 then "-" else "") ++
    Nat.repr (a.content.getD (a.length - 1) 0).toNat ++ lowerGroups a.content (a.length - 1)

/-- The valid BigNumber -123000000005: buckets 5 and 123, sign -1. -/
def sampleNegative : BigInt := ⟨[5, 123] ++ List.replicate 18 0, -1, 2⟩

/-- The state of the scaling loop when it reaches bucket `i`: the buckets below `i`
are in `[0, 10^9)` and, with the carry, stand for `n` times the original ones; the
buckets from `i` on are untouched. -/
def MulInv (c0 : List Int) (n : Int) (i : Nat) (c : List Int) (carry : Int) : Prop :=
  c.length = c0.length ∧ 0 ≤ carry ∧ carry < n ∧
  (∀ j < i, 0 ≤ c.getD j 0 ∧ c.getD j 0 < 1000000000) ∧
  (∀ j, i ≤ j → c.getD j 0 = c0.getD j 0) ∧
  magnitude c i + carry * 10 ^ (9 * i) = n * magnitude c0 i

/-- The validity asked of an operand where only the sign matters: the sign is -1, 0 or
1, and it is 0 exactly when no bucket is used. -/
def SignOK (a : BigInt) : Prop :=
  (a.sign = -1 ∨ a.sign = 0 ∨ a.sign = 1) ∧ (a.sign = 0 ↔ a.length = 0)

instance instDecidableSignOK (a : BigInt) : Decidable (SignOK a) := by
  unfold SignOK; infer_instance

/-- The evaluation ends: with a result, or at an access outside the array; it neither
uses up the call budget nor falls off the end of a function. -/
def Ends {α : Type} (x : Except Fault α) : Prop :=
  ∀ e, x = .error e → e = Fault.outOfBounds

/-! # Supporting lemmas -/

/-! ## Decimal numerals -/

theorem digitChar_facts (d : Nat) (h : d < 10) :
    digitVal (Nat.digitChar d) = d ∧ (Nat.digitChar d).isDigit = true := by
  interval_cases d <;> decide

theorem foldl_digit_shift (ys : List Char) : ∀ a : Nat,
    List.foldl (fun acc c => acc * 10 + digitVal c) a ys
      = a * 10 ^ ys.length + digitsVal ys := by
  induction ys with
  | nil => intro a; simp [digitsVal]
  | cons y ys ih =>
    intro a
    simp only [List.foldl_cons, List.length_cons, digitsVal]
    rw [ih (a * 10 + digitVal y), ih (0 * 10 + digitVal y)]
    ring

theorem digitsVal_append (xs ys : List Char) :
    digitsVal (xs ++ ys) = digitsVal xs * 10 ^ ys.length + digitsVal ys := by
  unfold digitsVal
  rw [List.foldl_append]
  exact foldl_digit_shift ys _

theorem digitsVal_zeros (m : Nat) : digitsVal (List.replicate m '0') = 0 := by
  induction m with
  | zero => rfl
  | succ m ih =>
    rw [List.replicate_succ, ← List.singleton_append, digitsVal_append, ih]
    simp [digitsVal, digitVal]

/-- One more digit `d` at the end of a run denoting `q` denotes `q * 10 + d`. -/
theorem digitsVal_snoc (run : List Char) (d : Nat) (hd : d < 10) :
    digitsVal (run ++ [Nat.digitChar d]) = digitsVal run * 10 + d := by
  rw [digitsVal_append]
  have h1 := (digitChar_facts d hd).1
  simp only [digitsVal, List.foldl_cons, List.foldl_nil, List.length_singleton]
  omega

/-- The number of digits of `n ≥ 10` is one more than that of `n / 10`. -/
theorem digit_count_step (n k : Nat) (h10 : 10 ≤ n) (hlt : n < 10 ^ (k + 1))
    (hge : k = 0 ∨ 10 ^ k ≤ n) :
    ∃ j, k = j + 1 ∧ n / 10 < 10 ^ (j + 1) ∧ (j = 0 ∨ 10 ^ j ≤ n / 10) := by
  rcases Nat.eq_zero_or_pos k with hk | hk
  · subst hk
    simp at hlt
    omega
  · refine ⟨k - 1, by omega, ?_, Or.inr ?_⟩
    · have e : 10 ^ (k + 1) = 10 ^ (k - 1 + 1) * 10 := by
        rw [show k + 1 = (k - 1 + 1) + 1 by omega, pow_succ]
      omega
    · have hk2 : 10 ^ k ≤ n := by
        rcases hge with h | h
        · omega
        · exact h
      have e : 10 ^ k = 10 ^ (k - 1) * 10 := by
        rw [show k = (k - 1) + 1 by omega, pow_succ]
        simp
      omega

/-- What `Nat.toDigitsCore` writes in base 10 when its budget exceeds `n`: in front of
the given tail, a non-empty run of digit characters that denotes `n` and has the
minimal length. -/
theorem toDigitsCore_decimal : ∀ (budget n : Nat) (tl : List Char), n < budget →
    ∃ run : List Char, run ≠ [] ∧ digitsVal run = n ∧
      (∀ ch ∈ run, ch.isDigit = true) ∧
      (∀ k, n < 10 ^ (k + 1) → (k = 0 ∨ 10 ^ k ≤ n) → run.length = k + 1) ∧
      Nat.toDigitsCore 10 budget n tl = run ++ tl := by
  intro budget
  induction budget with
  | zero => intro n tl hn; exact absurd hn (Nat.not_lt_zero n)
  | succ b step =>
    intro n tl hn
    have hlast := digitChar_facts (n % 10) (Nat.mod_lt n (by decide))
    rcases Nat.lt_or_ge n 10 with hsmall | hbig
    · refine ⟨[Nat.digitChar (n % 10)], List.cons_ne_nil _ _, ?_, ?_, ?_, ?_⟩
      · have h := digitsVal_snoc [] (n % 10) (Nat.mod_lt n (by decide))
        rw [List.nil_append] at h
        rw [h]
        show 0 * 10 + n % 10 = n
        omega
      · intro ch hch
        rw [List.eq_of_mem_singleton hch]
        exact hlast.2
      · intro k hlt hge
        rcases Nat.eq_zero_or_pos k with hk | hk
        · rw [hk]; rfl
        · have h10 : 10 ^ 1 ≤ 10 ^ k := Nat.pow_le_pow_right (by decide) hk
          omega
      · rw [Nat.toDigitsCore.eq_2, if_pos (by omega)]
        rfl
    · obtain ⟨run, hne, hval, hdig, hcount, heq⟩ :=
        step (n / 10) (Nat.digitChar (n % 10) :: tl) (by omega)
      refine ⟨run ++ [Nat.digitChar (n % 10)], ?_, ?_, ?_, ?_, ?_⟩
      · intro h
        exact hne (List.append_eq_nil.mp h).1
      · rw [digitsVal_snoc run (n % 10) (Nat.mod_lt n (by decide)), hval]
        omega
      · intro ch hch
        rcases List.mem_append.mp hch with h | h
        · exact hdig ch h
        · rw [List.eq_of_mem_singleton h]
          exact hlast.2
      · intro k hlt hge
        obtain ⟨j, hj, h1, h2⟩ := digit_count_step n k hbig hlt hge
        rw [List.length_append, hcount j h1 h2, hj]
        rfl
      · rw [Nat.toDigitsCore.eq_2, if_neg (by omega), heq, List.append_assoc]
        rfl

/-- The numeral `Nat.repr n`: a non-empty run of digits denoting `n`, with
`k + 1` digits when `10^k ≤ n < 10^(k+1)` (or `n < 10`, `k = 0`). -/
theorem repr_decimal (n : Nat) :
    (Nat.repr n).data ≠ [] ∧ (∀ c ∈ (Nat.repr n).data, c.isDigit = true) ∧
      digitsVal (Nat.repr n).data = n ∧
      (∀ k, n < 10 ^ (k + 1) → (k = 0 ∨ 10 ^ k ≤ n) → (Nat.repr n).length = k + 1) := by
  obtain ⟨run, hne, hval, hdig, hcount, heq⟩ := toDigitsCore_decimal (n + 1) n [] (by omega)
  have hr : (Nat.repr n).data = run := by
    show Nat.toDigits 10 n = run
    unfold Nat.toDigits
    rw [heq, List.append_nil]
  have hl : (Nat.repr n).length = run.length := by
    show (Nat.repr n).data.length = run.length
    rw [hr]
  rw [hr]
  exact ⟨hne, hdig, hval, fun k h1 h2 => by rw [hl]; exact hcount k h1 h2⟩

/-! ## Array accesses inside the bounds -/

theorem rd_ok (c : List Int) (i : Nat) (h : i < c.length) : rd c i = .ok (c.getD i 0) := by
  unfold rd
  rw [List.get?_eq_getElem?, List.getD_eq_getElem?_getD, List.getElem?_eq_getElem h]
  rfl

theorem wr_ok (c : List Int) (i : Nat) (v : Int) (h : i < c.length) :
    wr c i v = .ok (c.set i v) := by
  unfold wr
  rw [if_pos h]

theorem getD_set_eq (c : List Int) (i : Nat) (v : Int) (h : i < c.length) :
    (c.set i v).getD i 0 = v := by
  rw [List.getD_eq_getElem?_getD, List.getElem?_set, if_pos rfl, if_pos h]
  rfl

theorem getD_set_ne (c : List Int) (i j : Nat) (v : Int) (h : i ≠ j) :
    (c.set i v).getD j 0 = c.getD j 0 := by
  rw [List.getD_eq_getElem?_getD, List.getD_eq_getElem?_getD, List.getElem?_set, if_neg h]

/-! ## Serialisation -/

theorem putLL_nonneg (n : Nat) : BigInt.putLL (n : Int) = Nat.repr n := by
  unfold BigInt.putLL
  rw [if_neg (by omega)]
  rfl

theorem pad9_length (n : Nat) (h : n < 10 ^ 9) : (pad9 n).length = 9 := by
  have hl := Nat.repr_length n 9 (by norm_num) h
  unfold pad9
  rw [String.length_append]
  show (List.replicate _ '0').length + _ = 9
  rw [List.length_replicate]
  omega

/-- The chain of `if (content[i] < 10) ... else if (content[i] < 100) ...` writes the
bucket with exactly 9 digits. -/
theorem pad_chain (s : String) (x : Int) (h0 : 0 ≤ x) (h1 : x < 1000000000) :
    (if x < 10 then s ++ "00000000" ++ BigInt.putLL x
      else if x < 100 then s ++ "0000000" ++ BigInt.putLL x
      else if x < 1000 then s ++ "000000" ++ BigInt.putLL x
      else if x < 10000 then s ++ "00000" ++ BigInt.putLL x
      else if x < 100000 then s ++ "0000" ++ BigInt.putLL x
      else if x < 1000000 then s ++ "000" ++ BigInt.putLL x
      else if x < 10000000 then s ++ "00" ++ BigInt.putLL x
      else if x < 100000000 then s ++ "0" ++ BigInt.putLL x
      else s ++ BigInt.putLL x) = s ++ pad9 x.toNat := by
  obtain ⟨n, rfl⟩ := Int.eq_ofNat_of_zero_le h0
  rw [putLL_nonneg, Int.toNat_ofNat]
  have hlen := (repr_decimal n).2.2.2
  unfold pad9
  split_ifs
  · rw [hlen 0 (by omega) (Or.inl rfl), String.append_assoc]; rfl
  · rw [hlen 1 (by omega) (Or.inr (by omega)), String.append_assoc]; rfl
  · rw [hlen 2 (by omega) (Or.inr (by omega)), String.append_assoc]; rfl
  · rw [hlen 3 (by omega) (Or.inr (by omega)), String.append_assoc]; rfl
  · rw [hlen 4 (by omega) (Or.inr (by omega)), String.append_assoc]; rfl
  · rw [hlen 5 (by omega) (Or.inr (by omega)), String.append_assoc]; rfl
  · rw [hlen 6 (by omega) (Or.inr (by omega)), String.append_assoc]; rfl
  · rw [hlen 7 (by omega) (Or.inr (by omega)), String.append_assoc]; rfl
  · rw [hlen 8 (by omega) (Or.inr (by omega))]
    show s ++ n.repr = s ++ ("" ++ n.repr)
    rw [String.empty_append]

theorem toStringLoop_eq (c : List Int) : ∀ (k : Nat) (s : String), k ≤ c.length →
    (∀ i < k, 0 ≤ c.getD i 0 ∧ c.getD i 0 < BUCKET_LIMIT) →
    BigInt.toStringLoop c k s = .ok (s ++ lowerGroups c k) := by
  intro k
  induction k with
  | zero => intro s _ _; simp [BigInt.toStringLoop, lowerGroups]
  | succ k ih =>
    intro s hk hc
    have hx := hc k (by omega)
    unfold BUCKET_LIMIT at hx
    unfold BigInt.toStringLoop
    rw [rd_ok c k (by omega)]
    show BigInt.toStringLoop c k _ = _
    rw [pad_chain s _ hx.1 hx.2, ih _ (by omega) (fun i hi => hc i (by omega))]
    simp only [lowerGroups, String.append_assoc]

theorem pad9_data (n : Nat) :
    (pad9 n).data = List.replicate (9 - (Nat.repr n).length) '0' ++ (Nat.repr n).data := by
  unfold pad9
  rw [String.data_append]

theorem pad9_digits (n : Nat) : ∀ c ∈ (pad9 n).data, c.isDigit = true := by
  intro c hc
  rw [pad9_data, List.mem_append] at hc
  rcases hc with hc | hc
  · rw [List.eq_of_mem_replicate hc]; rfl
  · exact (repr_decimal n).2.1 c hc

theorem pad9_val (n : Nat) : digitsVal (pad9 n).data = n := by
  rw [pad9_data, digitsVal_append, digitsVal_zeros, (repr_decimal n).2.2.1]
  simp

/-- The lower buckets, each with 9 digits, read back as the sum of the buckets. -/
theorem lowerGroups_decimal (c : List Int) : ∀ k : Nat,
    (∀ i < k, 0 ≤ c.getD i 0 ∧ c.getD i 0 < BUCKET_LIMIT) →
    (∀ ch ∈ (lowerGroups c k).data, ch.isDigit = true) ∧
      (lowerGroups c k).data.length = 9 * k ∧
      ((digitsVal (lowerGroups c k).data : Nat) : Int) = magnitude c k := by
  intro k
  induction k with
  | zero => intro _; exact ⟨by intro ch hch; simp [lowerGroups] at hch, rfl, rfl⟩
  | succ k ih =>
    intro hc
    obtain ⟨h1, h2, h3⟩ := ih (fun i hi => hc i (by omega))
    have hx := hc k (by omega)
    unfold BUCKET_LIMIT at hx
    have hp : (pad9 (c.getD k 0).toNat).data.length = 9 :=
      pad9_length _ (by omega)
    have hd : (lowerGroups c (k + 1)).data
        = (pad9 (c.getD k 0).toNat).data ++ (lowerGroups c k).data := by
      show (pad9 (c.getD k 0).toNat ++ lowerGroups c k).data = _
      rw [String.data_append]
    refine ⟨?_, ?_, ?_⟩
    · intro ch hch
      rw [hd, List.mem_append] at hch
      rcases hch with hch | hch
      · exact pad9_digits _ ch hch
      · exact h1 ch hch
    · rw [hd, List.length_append, hp, h2]; ring
    · rw [hd, digitsVal_append, pad9_val, h2]
      show _ = magnitude c k + c.getD k 0 * 10 ^ (9 * k)
      rw [← h3]
      push_cast
      rw [Int.toNat_of_nonneg hx.1]
      ring

theorem parseDigits_of_digits (ds : List Char) (hne : ds ≠ [])
    (hd : ∀ c ∈ ds, c.isDigit = true) : parseDigits ds = some (digitsVal ds) := by
  unfold parseDigits
  rw [if_pos]
  exact ⟨hne, List.all_eq_true.mpr hd⟩


/-! ## The scaling loop of `operator * (int)` -/

theorem ok_bind {α β : Type} (x : α) (f : α → Except Fault β) :
    (Except.ok x >>= f) = f x := rfl

theorem wrapLL_id (x : Int) (h1 : -2 ^ 63 ≤ x) (h2 : x < 2 ^ 63) : wrapLL x = x := by
  unfold wrapLL; omega

theorem wrapI32_id (x : Int) (h1 : -2 ^ 31 ≤ x) (h2 : x < 2 ^ 31) : wrapI32 x = x := by
  unfold wrapI32; omega

theorem magnitude_set_ge (c : List Int) (i : Nat) (v : Int) : ∀ k, k ≤ i →
    magnitude (c.set i v) k = magnitude c k := by
  intro k
  induction k with
  | zero => intro _; rfl
  | succ k ih =>
    intro hk
    show magnitude (c.set i v) k + (c.set i v).getD k 0 * 10 ^ (9 * k) = _
    rw [ih (by omega), getD_set_ne c i k v (by omega)]
    rfl

theorem magnitude_nonneg (c : List Int) : ∀ k, (∀ j < k, 0 ≤ c.getD j 0) →
    0 ≤ magnitude c k := by
  intro k
  induction k with
  | zero => intro _; exact le_refl _
  | succ k ih =>
    intro h
    show 0 ≤ magnitude c k + c.getD k 0 * 10 ^ (9 * k)
    have h1 := ih (fun j hj => h j (by omega))
    have h2 := h k (by omega)
    positivity

/-- One bucket of the scaling loop: with `0 ≤ x < 10^9` and `0 ≤ carry < n < 2^31` no
`long long` overflows, the new bucket is in `[0, 10^9)` and the carry stays below `n`. -/
theorem mul_step (x n carry : Int) (hx0 : 0 ≤ x) (hx1 : x < 1000000000)
    (hn : n < 2 ^ 31) (hc0 : 0 ≤ carry) (hc1 : carry < n) :
    wrapLL (wrapLL (x * n) + carry) = x * n + carry ∧
    (x * n + carry).tmod BUCKET_LIMIT = (x * n + carry) % 1000000000 ∧
    (x * n + carry).tdiv BUCKET_LIMIT = (x * n + carry) / 1000000000 ∧
    0 ≤ (x * n + carry) / 1000000000 ∧ (x * n + carry) / 1000000000 < n := by
  have hn0 : 0 < n := by omega
  have hp0 : 0 ≤ x * n := Int.mul_nonneg hx0 (by omega)
  have hp1 : x * n ≤ 999999999 * n := Int.mul_le_mul_of_nonneg_right (by omega) (by omega)
  have hs0 : 0 ≤ x * n + carry := by omega
  refine ⟨?_, ?_, ?_, ?_, ?_⟩
  · rw [wrapLL_id (x * n) (by omega) (by omega), wrapLL_id _ (by omega) (by omega)]
  · exact Int.tmod_eq_emod hs0 (by unfold BUCKET_LIMIT; omega)
  · exact Int.tdiv_eq_ediv hs0 (by unfold BUCKET_LIMIT; omega)
  · exact Int.ediv_nonneg hs0 (by omega)
  · exact Int.ediv_lt_of_lt_mul (by omega) (by omega)

theorem mulLoop_inv (c0 : List Int) (n : Int) (hn : n < 2 ^ 31) :
    ∀ (k i : Nat) (c : List Int) (carry : Int), i + k ≤ c0.length →
      (∀ j < i + k, 0 ≤ c0.getD j 0 ∧ c0.getD j 0 < 1000000000) →
      MulInv c0 n i c carry →
      ∃ c2 carry2, BigInt.mulLoop n k i c carry = .ok (c2, carry2) ∧
        MulInv c0 n (i + k) c2 carry2 := by
  intro k
  induction k with
  | zero => intro i c carry _ _ h; exact ⟨c, carry, rfl, h⟩
  | succ k ih =>
    intro i c carry hik hc0 ⟨hlen, hcar0, hcar1, hlow, hsame, hmag⟩
    have hx := hc0 i (by omega)
    rw [← hsame i (le_refl _)] at hx
    obtain ⟨e1, e2, e3, e4, e5⟩ := mul_step _ n carry hx.1 hx.2 hn hcar0 hcar1
    have hstep : BigInt.mulLoop n (k + 1) i c carry
        = BigInt.mulLoop n k (i + 1) (c.set i ((c.getD i 0 * n + carry) % 1000000000))
            ((c.getD i 0 * n + carry) / 1000000000) := by
      rw [BigInt.mulLoop, rd_ok c i (by omega)]
      simp only [ok_bind]
      rw [e1, e2, e3, wr_ok c i _ (by omega), ok_bind]
    rw [hstep]
    have hrec := ih (i + 1) (c.set i ((c.getD i 0 * n + carry) % 1000000000))
      ((c.getD i 0 * n + carry) / 1000000000) (by omega)
      (fun j hj => hc0 j (by omega)) ?_
    · obtain ⟨c2, carry2, h1, h2⟩ := hrec
      refine ⟨c2, carry2, h1, ?_⟩
      rw [show i + (k + 1) = i + 1 + k by omega]
      exact h2
    · refine ⟨by rw [List.length_set]; exact hlen, e4, e5, ?_, ?_, ?_⟩
      · intro j hj
        rcases Nat.lt_or_ge j i with hji | hji
        · rw [getD_set_ne c i j _ (by omega)]; exact hlow j hji
        · have : j = i := by omega
          subst this
          rw [getD_set_eq c j _ (by omega)]
          exact ⟨Int.emod_nonneg _ (by norm_num), Int.emod_lt_of_pos _ (by norm_num)⟩
      · intro j hj
        rw [getD_set_ne c i j _ (by omega)]
        exact hsame j (by omega)
      · show magnitude (c.set i _) i + (c.set i _).getD i 0 * 10 ^ (9 * i) + _ =
          n * (magnitude c0 i + c0.getD i 0 * 10 ^ (9 * i))
        rw [magnitude_set_ge c i _ i (le_refl _), getD_set_eq c i _ (by omega),
          ← hsame i (le_refl _)]
        have hdm := Int.emod_add_ediv (c.getD i 0 * n + carry) 1000000000
        have hpow : (10 : Int) ^ (9 * (i + 1)) = 1000000000 * 10 ^ (9 * i) := by
          rw [show 9 * (i + 1) = 9 + 9 * i by ring, pow_add]; norm_num
        rw [hpow]
        linear_combination hmag + (10 ^ (9 * i) : Int) * hdm


/-! ## The constructor from a native integer -/

theorem memset_getD (c : List Int) (L j : Nat) (hL : L ≤ c.length) :
    (c.take L ++ List.replicate (c.length - L) 0).getD j 0
      = if j < L then c.getD j 0 else 0 := by
  simp only [List.getD_eq_getElem?_getD]
  by_cases h : j < L
  · rw [if_pos h, List.getElem?_append_left (by simp; omega), List.getElem?_take_of_lt h]
  · rw [if_neg h, List.getElem?_append_right (by simp; omega), List.getElem?_replicate]
    split_ifs <;> rfl

theorem magnitude_congr (c d : List Int) : ∀ k, (∀ j < k, c.getD j 0 = d.getD j 0) →
    magnitude c k = magnitude d k := by
  intro k
  induction k with
  | zero => intro _; rfl
  | succ k ih =>
    intro h
    show magnitude c k + c.getD k 0 * 10 ^ (9 * k) = magnitude d k + d.getD k 0 * 10 ^ (9 * k)
    rw [ih (fun j hj => h j (by omega)), h k (by omega)]

/-- The decomposition loop of `BigInt (long long)` started at bucket `i` (with
`length = i`) on `0 ≤ m < 10^(9 t)`: it stops within `t` iterations, leaves the buckets
below `i` alone, writes buckets in `[0, 10^9)` with a non-zero top one, and the buckets
written stand for `m`. -/
theorem ofLongLongLoop_spec : ∀ (t k : Nat) (m : Int) (i : Nat) (c : List Int),
    t ≤ k → 0 ≤ m → m < 10 ^ (9 * t) → i + t ≤ c.length → c.length ≤ 65535 →
    ∃ c2 len2, BigInt.ofLongLongLoop k m i c i = .ok (c2, len2) ∧ c2.length = c.length ∧
      i ≤ len2 ∧ len2 ≤ i + t ∧ (∀ j < i, c2.getD j 0 = c.getD j 0) ∧
      (∀ j, i ≤ j → j < len2 → 0 ≤ c2.getD j 0 ∧ c2.getD j 0 < 1000000000) ∧
      (0 < m → i < len2 ∧ c2.getD (len2 - 1) 0 ≠ 0) ∧ (m = 0 → len2 = i) ∧
      magnitude c2 len2 = magnitude c i + m * 10 ^ (9 * i) := by
  intro t
  induction t with
  | zero =>
    intro k m i c _ hm0 hm1 _ _
    have hm : m = 0 := by simp at hm1; omega
    subst hm
    refine ⟨c, i, ?_, rfl, le_refl _, le_refl _, fun _ _ => rfl, fun j h1 h2 => by omega,
      fun h => absurd h (lt_irrefl _), fun _ => rfl, by simp⟩
    cases k <;> rfl
  | succ t ih =>
    intro k m i c hk hm0 hm1 hi hc
    rcases lt_or_ge 0 m with hpos | hnp
    · obtain ⟨k2, rfl⟩ : ∃ k2, k = k2 + 1 := ⟨k - 1, by omega⟩
      have hmod : m.tmod BUCKET_LIMIT = m % 1000000000 :=
        Int.tmod_eq_emod hm0 (by unfold BUCKET_LIMIT; omega)
      have hdiv : m.tdiv BUCKET_LIMIT = m / 1000000000 :=
        Int.tdiv_eq_ediv hm0 (by unfold BUCKET_LIMIT; omega)
      have hstep : BigInt.ofLongLongLoop (k2 + 1) m i c i
          = BigInt.ofLongLongLoop k2 (m / 1000000000) (i + 1)
              (c.set i (m % 1000000000)) (i + 1) := by
        rw [BigInt.ofLongLongLoop, if_pos (by omega), hmod, hdiv, wr_ok c i _ (by omega),
          ok_bind]
        have hw : wrapUShort (i + 1) = i + 1 := by unfold wrapUShort; omega
        rw [hw]
      have hq0 : 0 ≤ m / 1000000000 := Int.ediv_nonneg hm0 (by omega)
      have hq1 : m / 1000000000 < 10 ^ (9 * t) := by
        apply Int.ediv_lt_of_lt_mul (by omega)
        calc m < 10 ^ (9 * (t + 1)) := hm1
          _ = 10 ^ (9 * t) * 1000000000 := by
            rw [show 9 * (t + 1) = 9 * t + 9 by ring, pow_add]; norm_num
      have hr0 : 0 ≤ m % 1000000000 := Int.emod_nonneg _ (by norm_num)
      have hr1 : m % 1000000000 < 1000000000 := Int.emod_lt_of_pos _ (by norm_num)
      obtain ⟨c2, len2, h1, h2, h3, h4, h5, h6, h7, h8, h9⟩ :=
        ih k2 (m / 1000000000) (i + 1) (c.set i (m % 1000000000)) (by omega) hq0 hq1
          (by rw [List.length_set]; omega) (by rw [List.length_set]; omega)
      have hci : c2.getD i 0 = m % 1000000000 := by
        rw [h5 i (by omega), getD_set_eq c i _ (by omega)]
      refine ⟨c2, len2, by rw [hstep, h1], by rw [h2, List.length_set], by omega, by omega,
        ?_, ?_, ?_, fun h => by omega, ?_⟩
      · intro j hj
        rw [h5 j (by omega), getD_set_ne c i j _ (by omega)]
      · intro j hj1 hj2
        rcases Nat.eq_or_lt_of_le hj1 with h | h
        · rw [← h, hci]; exact ⟨hr0, hr1⟩
        · exact h6 j (by omega) hj2
      · intro _
        refine ⟨by omega, ?_⟩
        rcases lt_or_ge 0 (m / 1000000000) with hq | hq
        · exact (h7 hq).2
        · have hq00 : m / 1000000000 = 0 := by omega
          rw [h8 hq00, Nat.add_sub_cancel, hci]
          have := Int.emod_add_ediv m 1000000000
          omega
      · rw [h9]
        show magnitude (c.set i _) i + (c.set i _).getD i 0 * 10 ^ (9 * i) + _ = _
        rw [magnitude_set_ge c i _ i (le_refl _), getD_set_eq c i _ (by omega)]
        have hdm := Int.emod_add_ediv m 1000000000
        have hpow : (10 : Int) ^ (9 * (i + 1)) = 1000000000 * 10 ^ (9 * i) := by
          rw [show 9 * (i + 1) = 9 + 9 * i by ring, pow_add]; norm_num
        rw [hpow]
        linear_combination (10 ^ (9 * i) : Int) * hdm
    · have hm : m = 0 := by omega
      subst hm
      refine ⟨c, i, ?_, rfl, le_refl _, by omega, fun _ _ => rfl, fun j h1 h2 => by omega,
        fun h => absurd h (lt_irrefl _), fun _ => rfl, by simp⟩
      cases k <;> rfl

/-- Apart from the minimum value, `BigInt (long long n)` is exact and canonical: it
returns a valid BigNumber of sign `signum n` that stands for `n`. -/
theorem ofLongLong_exact (n : Int) (h1 : -(2 ^ 63) < n) (h2 : n < 2 ^ 63) :
    ∃ r, BigInt.ofLongLong n = .ok r ∧ Valid r ∧ value r = n ∧ r.sign = Int.sign n ∧
      (r.length = 0 ↔ n = 0) := by
  by_cases hn : n = 0
  · subst hn
    exact ⟨⟨zeroContent, 0, 0⟩, rfl, by decide, rfl, rfl, by simp⟩
  · obtain ⟨m, hm, hm0, hm1, hsm⟩ : ∃ m : Int,
        (if n < 0 then wrapLL (0 - n) else n) = m ∧ 0 < m ∧ m < 2 ^ 63 ∧
        (if n > 0 then (1 : Int) else -1) * m = n := by
      rcases lt_or_gt_of_ne hn with h | h
      · refine ⟨-n, ?_, by omega, by omega, ?_⟩
        · rw [if_pos h, wrapLL_id _ (by omega) (by omega)]; ring
        · rw [if_neg (by omega)]; ring
      · exact ⟨n, by rw [if_neg (by omega)], h, h2, by rw [if_pos h]; ring⟩
    obtain ⟨c2, len2, e1, e2, -, e4, -, e6, e7, -, e9⟩ :=
      ofLongLongLoop_spec 3 64 m 0 zeroContent (by decide) (by omega)
        (by norm_num; omega) (by decide) (by decide)
    have hc2 : c2.length = 20 := e2
    have hlen : len2 ≤ 3 := by omega
    have hpos := e7 hm0
    have hsg : (if n > 0 then (1 : Int) else -1) = Int.sign n := by
      rcases lt_or_gt_of_ne hn with h | h
      · rw [if_neg (by omega), Int.sign_eq_neg_one_of_neg h]
      · rw [if_pos h, Int.sign_eq_one_of_pos h]
    have hget : ∀ j, (c2.take len2 ++ List.replicate (c2.length - len2) 0).getD j 0
        = if j < len2 then c2.getD j 0 else 0 :=
      fun j => memset_getD c2 len2 j (by omega)
    have hcl : (c2.take len2 ++ List.replicate (c2.length - len2) 0).length = MAX := by
      rw [List.length_append, List.length_take, List.length_replicate]
      unfold MAX
      omega
    refine ⟨⟨c2.take len2 ++ List.replicate (c2.length - len2) 0,
      if n > 0 then 1 else -1, len2⟩, ?_, ?_, ?_, hsg, ?_⟩
    · unfold BigInt.ofLongLong
      rw [if_neg hn]
      simp only [hm]
      rw [e1]
      simp only [ok_bind]
      unfold memsetFrom
      rw [if_pos (by omega)]
      rfl
    · refine ⟨hcl, by show len2 ≤ 20; omega, ?_, ?_, ?_, ?_, ?_⟩
      · show (if n > 0 then (1 : Int) else -1) = -1 ∨ _
        split_ifs
        · exact Or.inr (Or.inr rfl)
        · exact Or.inl rfl
      · show (if n > 0 then (1 : Int) else -1) = 0 ↔ len2 = 0
        constructor
        · intro h
          split_ifs at h
          all_goals omega
        · intro h; omega
      · intro i hi
        show 0 ≤ (c2.take len2 ++ _).getD i 0 ∧ (c2.take len2 ++ _).getD i 0 < BUCKET_LIMIT
        rw [hget i, if_pos hi]
        exact e6 i (by omega) hi
      · intro _
        show (c2.take len2 ++ _).getD (len2 - 1) 0 ≠ 0
        rw [hget _, if_pos (by omega)]
        exact hpos.2
      · intro i _ hi
        have hi2 : len2 ≤ i := hi
        show (c2.take len2 ++ _).getD i 0 = 0
        rw [hget i, if_neg (by omega)]
    · unfold value
      show (if n > 0 then (1 : Int) else -1) * magnitude (c2.take len2 ++ _) len2 = n
      rw [magnitude_congr _ c2 len2 (fun j hj => by rw [hget j, if_pos hj]), e9]
      simp only [magnitude, Nat.mul_zero, pow_zero, mul_one, zero_add]
      exact hsm
    · show len2 = 0 ↔ n = 0
      constructor
      · intro h; omega
      · intro h; exact absurd h hn

/-! ## The numeral written for a bucket is not empty -/

theorem putLL_length_pos (x : Int) : 0 < (BigInt.putLL x).length := by
  unfold BigInt.putLL
  split_ifs
  · rw [String.length_append]
    exact Nat.lt_of_lt_of_le (by decide) (Nat.le_add_right _ _)
  · exact List.length_pos.mpr (repr_decimal x.toNat).1


/-! ## Comparing and subtracting an object with itself -/

theorem ltLoop_self (c : List Int) (onLess : Bool) : ∀ k i : Nat, i + k ≤ c.length →
    BigInt.ltLoop c c onLess k i = .ok false := by
  intro k
  induction k with
  | zero => intro i _; rfl
  | succ k ih =>
    intro i hi
    rw [BigInt.ltLoop, rd_ok c i (by omega)]
    simp only [ok_bind]
    rw [if_neg (lt_irrefl _), if_neg (lt_irrefl _)]
    exact ih (i + 1) (by omega)

theorem eqLoop_self (c : List Int) : ∀ k i : Nat, i + k ≤ c.length →
    BigInt.eqLoop c c k i = .ok true := by
  intro k
  induction k with
  | zero => intro i _; rfl
  | succ k ih =>
    intro i hi
    rw [BigInt.eqLoop, rd_ok c i (by omega)]
    simp only [ok_bind]
    rw [if_neg (fun h => h rfl)]
    exact ih (i + 1) (by omega)

theorem opEq_self (a : BigInt) (h : a.length ≤ a.content.length) :
    BigInt.opEq a a = .ok true := by
  unfold BigInt.opEq
  rw [if_neg (fun h => h rfl), if_neg (fun h => h rfl)]
  exact eqLoop_self _ _ _ (by omega)

/-- The chain of `operator <` between objects of equal sign, the sign being -1, 0 or 1. -/
theorem opLt_equal_signs (a b : BigInt) (hs : a.sign = -1 ∨ a.sign = 0 ∨ a.sign = 1)
    (h : a.sign = b.sign) :
    BigInt.opLt a b =
      if a.sign = 0 then .ok false
      else if a.length < b.length then .ok (decide (a.sign = 1))
      else if a.length > b.length then .ok (decide (a.sign = -1))
      else BigInt.ltLoop a.content b.content (decide (a.sign = 1)) a.length 0 := by
  unfold BigInt.opLt
  rw [if_neg (by omega), if_neg (by omega)]
  rcases lt_trichotomy a.length b.length with hl | hl | hl
  · have h1 : ¬ a.length > b.length := by omega
    have h2 : ¬ a.length = b.length := by omega
    rcases hs with hs | hs | hs <;> simp [hs, hl, h1, h2]
  · have h1 : ¬ a.length > b.length := by omega
    have h2 : ¬ a.length < b.length := by omega
    rcases hs with hs | hs | hs <;> simp [hs, hl]
  · have h1 : ¬ a.length < b.length := by omega
    have h2 : ¬ a.length = b.length := by omega
    rcases hs with hs | hs | hs <;> simp [hs, hl, h1, h2]

theorem opLt_self (a : BigInt) (hs : a.sign = -1 ∨ a.sign = 0 ∨ a.sign = 1)
    (h : a.length ≤ a.content.length) : BigInt.opLt a a = .ok false := by
  rw [opLt_equal_signs a a hs rfl]
  by_cases h0 : a.sign = 0
  · rw [if_pos h0]
  · rw [if_neg h0, if_neg (lt_irrefl _), if_neg (lt_irrefl _)]
    exact ltLoop_self _ _ _ _ (by omega)

theorem opGt_self (a : BigInt) (hs : a.sign = -1 ∨ a.sign = 0 ∨ a.sign = 1)
    (h : a.length ≤ a.content.length) : BigInt.opGt a a = .ok false := by
  unfold BigInt.opGt BigInt.opLe
  rw [opLt_self a hs h]
  simp only [ok_bind]
  rw [opEq_self a h]
  rfl

/-- Subtracting the buckets of `c` from a copy of them: every bucket becomes 0 without
a borrow and `hasZeroValue` stays `true`. -/
theorem subLoopSwapped_self (c : List Int) : ∀ (k i : Nat) (m : List Int),
    i + k ≤ c.length → m.length = c.length → (∀ j, i ≤ j → m.getD j 0 = c.getD j 0) →
    ∃ m2, BigInt.subLoopSwapped c c k i m true = .ok (m2, true) := by
  intro k
  induction k with
  | zero => intro i m _ _ _; exact ⟨m, rfl⟩
  | succ k ih =>
    intro i m hi hm hsame
    rw [BigInt.subLoopSwapped, rd_ok m i (by omega), rd_ok c i (by omega)]
    simp only [ok_bind]
    rw [hsame i (le_refl _), if_pos (le_refl _), sub_self, wr_ok m i _ (by omega)]
    simp only [ok_bind]
    rw [rd_ok _ i (by rw [List.length_set]; omega), getD_set_eq m i _ (by omega)]
    simp only [ok_bind]
    have hz : wrapLL 0 = 0 := by decide
    rw [hz]
    exact ih (i + 1) (m.set i 0) (by omega) (by rw [List.length_set]; exact hm)
      (fun j hj => by rw [getD_set_ne m i j _ (by omega)]; exact hsame j (by omega))

/-! ## The comparison operators -/

/-- The loops of `operator <` and `operator ==` on the same buckets: both return, and
when the loop of `<` returns `true` the loop of `==` returns `false`. -/
theorem lt_eq_loops (a b : List Int) (onLess : Bool) : ∀ k i : Nat,
    i + k ≤ a.length → i + k ≤ b.length →
    ∃ l e, BigInt.ltLoop a b onLess k i = .ok l ∧ BigInt.eqLoop a b k i = .ok e ∧
      (l = true → e = false) := by
  intro k
  induction k with
  | zero => intro i _ _; exact ⟨false, true, rfl, rfl, fun h => absurd h (by decide)⟩
  | succ k ih =>
    intro i ha hb
    rw [BigInt.ltLoop, BigInt.eqLoop, rd_ok a i (by omega), rd_ok b i (by omega)]
    simp only [ok_bind]
    rcases lt_trichotomy (a.getD i 0) (b.getD i 0) with h | h | h
    · rw [if_pos h, if_pos (ne_of_lt h)]
      exact ⟨onLess, false, rfl, rfl, fun _ => rfl⟩
    · rw [if_neg (by omega), if_neg (by omega), if_neg (fun h2 => h2 h)]
      exact ih (i + 1) (by omega) (by omega)
    · rw [if_neg (by omega), if_pos h, if_pos (ne_of_gt h)]
      exact ⟨!onLess, false, rfl, rfl, fun _ => rfl⟩

theorem opGt_of (a b : BigInt) (l e : Bool) (hl : BigInt.opLt a b = .ok l)
    (he : BigInt.opEq a b = .ok e) : BigInt.opGt a b = .ok (!(l || e)) := by
  unfold BigInt.opGt BigInt.opLe
  rw [hl]
  simp only [ok_bind]
  cases l
  · rw [if_neg (by decide), he]; rfl
  · rw [if_pos rfl]; rfl

/-! ## The two operands of the demonstration in `main` -/

/-- The object `BigInt ("9999999999123456789123456")`: three buckets, whatever the array
held before. -/
theorem ofString_first_operand (u : Nat → Int) :
    BigInt.ofString (uninitOf u) "9999999999123456789123456"
      = .ok ⟨[789123456, 999123456, 9999999] ++ List.replicate 17 0, 1, 3⟩ := rfl

/-- The object `BigInt ("12345678912")`: two buckets, whatever the array held before. -/
theorem ofString_second_operand (v : Nat → Int) :
    BigInt.ofString (uninitOf v) "12345678912"
      = .ok ⟨[345678912, 12] ++ List.replicate 18 0, 1, 2⟩ := rfl

/-! ## The constructor from a string never rejects -/

theorem substr_ok (n : List Char) (pos count : Int) (h0 : 0 ≤ pos) (h1 : pos ≤ n.length) :
    ∃ chunk, BigInt.substr n pos count = .ok chunk := by
  unfold BigInt.substr
  rw [if_neg (by omega)]
  split_ifs
  · exact ⟨_, rfl⟩
  · exact ⟨_, rfl⟩

theorem extractBucket_ok (st : BigInt.SStream) (c : List Int) (L : Nat) (h : L < c.length) :
    ∃ st2 c2, BigInt.extractBucket st c L = .ok (st2, c2, wrapUShort (L + 1)) ∧
      c2.length = c.length := by
  unfold BigInt.extractBucket
  rw [rd_ok c L h]
  simp only [ok_bind]
  rw [wr_ok c L _ h]
  exact ⟨_, _, rfl, List.length_set _ _ _⟩

/-- The chunk loop of `BigInt (string)` on a string of at most 179 characters: it ends
below `posFirstDigit` with at most 19 buckets read and no access outside the array. -/
theorem ofStringLoop_ok (n : List Char) (p : Int) (hp : 0 ≤ p) (hn : n.length ≤ 179) :
    ∀ (k : Nat) (i : Int) (st : BigInt.SStream) (c : List Int) (L : Nat),
    i < k → i + 9 + 9 * L = n.length → L ≤ 19 → c.length = 20 →
    ∃ i2 st2 c2 L2, BigInt.ofStringLoop n p k i st c L = .ok (i2, st2, c2, L2) ∧
      c2.length = 20 ∧ L2 ≤ 19 ∧ i2 < p := by
  intro k
  induction k with
  | zero =>
    intro i st c L hi _ hL hc
    refine ⟨i, st, c, L, ?_, hc, hL, by omega⟩
    rw [BigInt.ofStringLoop, if_neg (by omega)]
  | succ k ih =>
    intro i st c L hi hinv hL hc
    rw [BigInt.ofStringLoop]
    by_cases hge : i ≥ p
    · rw [if_pos hge]
      obtain ⟨chunk, hchunk⟩ := substr_ok n i BUCKET_NUM_DIGITS (by omega) (by omega)
      obtain ⟨st2, c2, hex, hc2⟩ := extractBucket_ok (st.put chunk) c L (by omega)
      have hw : wrapUShort (L + 1) = L + 1 := by unfold wrapUShort; omega
      have hi9 : wrapI32 (i - 9) = i - 9 := wrapI32_id _ (by omega) (by omega)
      rw [hchunk]
      simp only [ok_bind]
      rw [hex]
      simp only [ok_bind]
      rw [hw, hi9]
      exact ih (i - 9) st2.clear c2 (L + 1) (by push_cast at hi; omega)
        (by push_cast; omega) (by omega) (by rw [hc2, hc])
    · rw [if_neg hge]
      exact ⟨i, st, c, L, rfl, hc, hL, by omega⟩

theorem uninitOf_length (u : Nat → Int) : (uninitOf u).length = 20 := by
  unfold uninitOf
  rw [List.length_map, List.length_range]
  rfl

/-! ## The calls between `operator +` and `operator -` -/

theorem ends_ok {α : Type} (a : α) : Ends (Except.ok a : Except Fault α) := by
  intro e h
  exact Except.noConfusion h

theorem ends_bind {α β : Type} (x : Except Fault α) (f : α → Except Fault β)
    (hx : Ends x) (hf : ∀ a, Ends (f a)) : Ends (x >>= f) := by
  cases x with
  | error e0 =>
    intro e h
    have h2 : (Except.error e0 : Except Fault β) = Except.error e := h
    rw [← Except.error.inj h2]
    exact hx e0 rfl
  | ok a => exact hf a

theorem ends_rd (c : List Int) (i : Nat) : Ends (rd c i) := by
  unfold rd
  cases c.get? i with
  | none => intro e h; exact (Except.error.inj h).symm
  | some v => exact ends_ok v

theorem ends_wr (c : List Int) (i : Nat) (v : Int) : Ends (wr c i v) := by
  unfold wr
  split_ifs
  · exact ends_ok _
  · intro e h; exact (Except.error.inj h).symm

theorem ends_ne_noFuel {α : Type} (x : Except Fault α) (h : Ends x) :
    x ≠ .error .noFuel := by
  intro hx
  exact absurd (h _ hx) (by decide)

theorem ends_addLoop (a b : List Int) : ∀ (k i : Nat) (out : List Int) (carry : Int),
    Ends (BigInt.addLoop a b k i out carry) := by
  intro k
  induction k with
  | zero => intro i out carry; exact ends_ok _
  | succ k ih =>
    intro i out carry
    rw [BigInt.addLoop]
    refine ends_bind _ _ (ends_rd _ _) (fun x => ?_)
    refine ends_bind _ _ (ends_rd _ _) (fun y => ?_)
    refine ends_bind _ _ (ends_wr _ _ _) (fun o => ?_)
    exact ih _ _ _

theorem ends_eqLoop (a b : List Int) : ∀ k i : Nat, Ends (BigInt.eqLoop a b k i) := by
  intro k
  induction k with
  | zero => intro i; exact ends_ok _
  | succ k ih =>
    intro i
    rw [BigInt.eqLoop]
    refine ends_bind _ _ (ends_rd _ _) (fun x => ?_)
    refine ends_bind _ _ (ends_rd _ _) (fun y => ?_)
    split_ifs
    · exact ends_ok _
    · exact ih _

theorem ends_ltLoop (a b : List Int) (onLess : Bool) : ∀ k i : Nat,
    Ends (BigInt.ltLoop a b onLess k i) := by
  intro k
  induction k with
  | zero => intro i; exact ends_ok _
  | succ k ih =>
    intro i
    rw [BigInt.ltLoop]
    refine ends_bind _ _ (ends_rd _ _) (fun x => ?_)
    refine ends_bind _ _ (ends_rd _ _) (fun y => ?_)
    split_ifs
    · exact ends_ok _
    · exact ends_ok _
    · exact ih _

theorem ends_subLoop (sub : List Int) : ∀ (k i : Nat) (m : List Int) (hz : Bool),
    Ends (BigInt.subLoop sub k i m hz) := by
  intro k
  induction k with
  | zero => intro i m hz; exact ends_ok _
  | succ k ih =>
    intro i m hz
    rw [BigInt.subLoop]
    refine ends_bind _ _ (ends_rd _ _) (fun x => ?_)
    refine ends_bind _ _ (ends_rd _ _) (fun y => ?_)
    have jp : ∀ m2 : List Int, Ends (do
        let cur ← rd m2 i
        BigInt.subLoop sub k (i + 1) m2 (if (hz && cur != 0) = true then false else hz)) :=
      fun m2 => ends_bind _ _ (ends_rd _ _) (fun cur => ih _ _ _)
    dsimp only []
    split_ifs
    · exact ends_bind _ _ (ends_wr _ _ _) (fun m2 => jp m2)
    · refine ends_bind _ _ (ends_wr _ _ _) (fun m3 => ?_)
      refine ends_bind _ _ (ends_rd _ _) (fun nx => ?_)
      exact ends_bind _ _ (ends_wr _ _ _) (fun m2 => jp m2)

theorem ends_subLoopSwapped (orig sub : List Int) :
    ∀ (k i : Nat) (m : List Int) (hz : Bool),
    Ends (BigInt.subLoopSwapped orig sub k i m hz) := by
  intro k
  induction k with
  | zero => intro i m hz; exact ends_ok _
  | succ k ih =>
    intro i m hz
    rw [BigInt.subLoopSwapped]
    refine ends_bind _ _ (ends_rd _ _) (fun x => ?_)
    refine ends_bind _ _ (ends_rd _ _) (fun y => ?_)
    have jp : ∀ m2 : List Int, Ends (do
        let cur ← rd m2 i
        BigInt.subLoopSwapped orig sub k (i + 1) m2
          (if (hz && cur != 0) = true then false else hz)) :=
      fun m2 => ends_bind _ _ (ends_rd _ _) (fun cur => ih _ _ _)
    dsimp only []
    split_ifs
    · exact ends_bind _ _ (ends_wr _ _ _) (fun m2 => jp m2)
    · refine ends_bind _ _ (ends_rd _ _) (fun ni => ?_)
      refine ends_bind _ _ (ends_wr _ _ _) (fun m3 => ?_)
      refine ends_bind _ _ (ends_rd _ _) (fun nx => ?_)
      exact ends_bind _ _ (ends_wr _ _ _) (fun m2 => jp m2)

theorem ends_opEq (a b : BigInt) : Ends (BigInt.opEq a b) := by
  unfold BigInt.opEq
  split_ifs
  · exact ends_ok _
  · exact ends_ok _
  · exact ends_eqLoop _ _ _ _

theorem ends_opLt (a b : BigInt) (hs : a.sign = -1 ∨ a.sign = 0 ∨ a.sign = 1) :
    Ends (BigInt.opLt a b) := by
  by_cases h : a.sign = b.sign
  · rw [opLt_equal_signs a b hs h]
    split_ifs
    · exact ends_ok _
    · exact ends_ok _
    · exact ends_ok _
    · exact ends_ltLoop _ _ _ _ _
  · unfold BigInt.opLt
    rcases lt_or_gt_of_ne h with h1 | h1
    · rw [if_pos h1]; exact ends_ok _
    · rw [if_neg (show ¬ a.sign < b.sign by omega), if_pos h1]; exact ends_ok _

theorem ends_opGt (a b : BigInt) (hs : a.sign = -1 ∨ a.sign = 0 ∨ a.sign = 1) :
    Ends (BigInt.opGt a b) := by
  unfold BigInt.opGt BigInt.opLe
  refine ends_bind _ _ ?_ (fun r => ends_ok _)
  refine ends_bind _ _ (ends_opLt a b hs) (fun l => ?_)
  split_ifs
  · exact ends_ok _
  · exact ends_opEq a b

theorem ends_ofLongLong_zero : Ends (BigInt.ofLongLong 0) := by
  have h : BigInt.ofLongLong 0 = .ok ⟨zeroContent, 0, 0⟩ := rfl
  rw [h]
  exact ends_ok _

/-- The same-sign branch of `operator -` ends when the sign is -1, 0 or 1. -/
theorem ends_subSameSign (a b : BigInt) (hs : a.sign = -1 ∨ a.sign = 0 ∨ a.sign = 1) :
    Ends (BigInt.subSameSign a b) := by
  unfold BigInt.subSameSign
  split_ifs
  · exact ends_ok _
  · refine ends_bind _ _ (ends_opGt a b hs) (fun gt => ?_)
    split_ifs
    · refine ends_bind _ _ (ends_subLoop _ _ _ _ _) (fun p => ?_)
      obtain ⟨m, hz⟩ := p
      show Ends (if hz = true then _ else _)
      split_ifs
      · exact ends_ofLongLong_zero
      · exact ends_ok _
    · refine ends_bind _ _ (ends_subLoopSwapped _ _ _ _ _ _) (fun p => ?_)
      obtain ⟨m, hz⟩ := p
      show Ends (if hz = true then _ else _)
      split_ifs
      · exact ends_ofLongLong_zero
      · exact ends_ok _

/-- One more unit of call budget does not change an evaluation that did not use the
budget up. -/
theorem fuel_succ : ∀ k : Nat,
    (∀ a b, BigInt.opAdd k a b ≠ .error .noFuel →
      BigInt.opAdd (k + 1) a b = BigInt.opAdd k a b) ∧
    (∀ a b, BigInt.opSub k a b ≠ .error .noFuel →
      BigInt.opSub (k + 1) a b = BigInt.opSub k a b) := by
  intro k
  induction k with
  | zero =>
    exact ⟨fun a b h => absurd rfl h, fun a b h => absurd rfl h⟩
  | succ k ih =>
    constructor
    · intro a b h
      rw [BigInt.opAdd] at h
      rw [BigInt.opAdd, BigInt.opAdd]
      by_cases h1 : a.length = 0
      · rw [if_pos h1, if_pos h1]
      · rw [if_neg h1, if_neg h1]
        rw [if_neg h1] at h
        by_cases h2 : b.length = 0
        · rw [if_pos h2, if_pos h2]
        · rw [if_neg h2, if_neg h2]
          rw [if_neg h2] at h
          by_cases h3 : a.sign = b.sign
          · rw [if_pos h3, if_pos h3]
          · rw [if_neg h3, if_neg h3]
            rw [if_neg h3] at h
            by_cases h4 : a.sign = -1
            · rw [if_pos h4, if_pos h4]
              rw [if_pos h4] at h
              have h5 : BigInt.opSub k b ⟨a.content, 1, a.length⟩ ≠ .error .noFuel := by
                intro hx
                rw [hx] at h
                exact h rfl
              rw [ih.2 _ _ h5]
            · rw [if_neg h4, if_neg h4]
              rw [if_neg h4] at h
              exact ih.2 _ _ h
    · intro a b h
      rw [BigInt.opSub] at h
      rw [BigInt.opSub, BigInt.opSub]
      by_cases h1 : a.sign = b.sign
      · rw [if_pos h1, if_pos h1]
      · rw [if_neg h1, if_neg h1]
        rw [if_neg h1] at h
        exact ih.1 _ _ h

theorem fuel_add (k : Nat) (a b : BigInt) (h : BigInt.opAdd k a b ≠ .error .noFuel) :
    ∀ j, BigInt.opAdd (k + j) a b = BigInt.opAdd k a b := by
  intro j
  induction j with
  | zero => rfl
  | succ j ih =>
    rw [← Nat.add_assoc, (fuel_succ (k + j)).1 a b (by rw [ih]; exact h), ih]

theorem fuel_sub (k : Nat) (a b : BigInt) (h : BigInt.opSub k a b ≠ .error .noFuel) :
    ∀ j, BigInt.opSub (k + j) a b = BigInt.opSub k a b := by
  intro j
  induction j with
  | zero => rfl
  | succ j ih =>
    rw [← Nat.add_assoc, (fuel_succ (k + j)).2 a b (by rw [ih]; exact h), ih]

/-- The call `a + b` with one delegation allowed, for a left operand of valid sign and
a right operand that is zero-length or has sign 1 or -1. -/
theorem ends_opAdd_two (a b : BigInt) (ha : SignOK a)
    (hb : b.length ≠ 0 → b.sign = 1 ∨ b.sign = -1) : Ends (BigInt.opAdd 2 a b) := by
  obtain ⟨hs, hz⟩ := ha
  rw [BigInt.opAdd]
  by_cases h1 : a.length = 0
  · rw [if_pos h1]; exact ends_ok _
  · rw [if_neg h1]
    by_cases h2 : b.length = 0
    · rw [if_pos h2]; exact ends_ok _
    · rw [if_neg h2]
      have ha0 : a.sign ≠ 0 := fun h => h1 (hz.mp h)
      by_cases h3 : a.sign = b.sign
      · rw [if_pos h3]
        refine ends_bind _ _ (ends_addLoop _ _ _ _ _ _) (fun p => ?_)
        obtain ⟨c, carry⟩ := p
        show Ends (if carry > 0 then _ else _)
        by_cases hc : carry > 0
        · rw [if_pos hc]
          exact ends_bind _ _ (ends_wr _ _ _) (fun c2 => ends_ok _)
        · rw [if_neg hc]
          exact ends_ok _
      · rw [if_neg h3]
        by_cases h4 : a.sign = -1
        · rw [if_pos h4]
          have hb1 : b.sign = 1 := by
            rcases hb h2 with h | h
            · exact h
            · exact absurd (h4.trans h.symm) h3
          refine ends_bind _ _ ?_ (fun r => ends_ok _)
          rw [BigInt.opSub, if_pos hb1]
          exact ends_bind _ _ (ends_subSameSign _ _ (Or.inr (Or.inr hb1))) (fun r => ends_ok _)
        · rw [if_neg h4]
          have ha1 : a.sign = 1 := by
            rcases hs with h | h | h
            · exact absurd h h4
            · exact absurd h ha0
            · exact h
          rw [BigInt.opSub, if_pos ha1]
          exact ends_bind _ _ (ends_subSameSign _ _ (Or.inr (Or.inr ha1))) (fun r => ends_ok _)

/-! # The claims -/

/-! ## Same-sign addition (C1) -/

/-- C1 (defect in the code): `BigInt (999999999) + BigInt (1)`.  Both operands are valid
and positive and the sum 10^9 needs two buckets, but the final carry is stored with
`num.content[length ++]`: the length of the left operand is incremented instead of the
length of the result, which keeps one bucket and stands for 0. -/
theorem C1_add_final_carry_not_counted :
    ∃ a b r, BigInt.ofLongLong 999999999 = .ok a ∧ BigInt.ofLongLong 1 = .ok b ∧
      Valid a ∧ Valid b ∧ a.sign = 1 ∧ b.sign = 1 ∧ value a + value b = 10 ^ 9 ∧
      BigInt.opAdd 3 a b = .ok r ∧
      r.ret = ⟨[0, 1] ++ List.replicate 18 0, 1, 1⟩ ∧
      value r.ret = 0 ∧ r.self.length = 2 :=
  ⟨⟨[999999999] ++ List.replicate 19 0, 1, 1⟩, ⟨[1] ++ List.replicate 19 0, 1, 1⟩,
    ⟨⟨[999999999] ++ List.replicate 19 0, 1, 2⟩, ⟨[0, 1] ++ List.replicate 18 0, 1, 1⟩⟩,
    by decide⟩

/-! ## Same-sign subtraction (C2) -/

/-- C2 (defect in the code): `BigInt (1000000000) - BigInt (1)`.  The borrow computes
`10 * minuend.content[i] - n.content[i]`, so bucket 0 becomes `10 * 0 - 1 = -1` and the
result stands for -1 instead of 999999999. -/
theorem C2_sub_borrow_scales_by_ten :
    ∃ a b r, BigInt.ofLongLong 1000000000 = .ok a ∧ BigInt.ofLongLong 1 = .ok b ∧
      Valid a ∧ Valid b ∧ a.sign = 1 ∧ b.sign = 1 ∧ value a - value b = 999999999 ∧
      BigInt.opSub 3 a b = .ok r ∧
      r.ret = ⟨[-1, 0] ++ List.replicate 18 0, 1, 2⟩ ∧ value r.ret = -1 :=
  ⟨⟨[0, 1] ++ List.replicate 18 0, 1, 2⟩, ⟨[1] ++ List.replicate 19 0, 1, 1⟩,
    ⟨⟨[0, 1] ++ List.replicate 18 0, 1, 2⟩, ⟨[-1, 0] ++ List.replicate 18 0, 1, 2⟩⟩,
    by decide⟩

/-! ## Multiplication by a BigNumber (C3) -/

/-- C3 (defect in the code): `BigInt (1999999999) * BigInt (999999999)`.  The product
1999999997000000001 needs three buckets; the accumulation `rs = rs + temp` loses the
final carry (the same `length ++` as in C1) and the result keeps two buckets, standing
for 999999997000000001. -/
theorem C3_mul_loses_carry_of_accumulation :
    ∃ a b r, BigInt.ofLongLong 1999999999 = .ok a ∧ BigInt.ofLongLong 999999999 = .ok b ∧
      Valid a ∧ Valid b ∧ value a * value b = 1999999997000000001 ∧
      BigInt.opMul 3 a b = .ok r ∧
      r = ⟨[1, 999999997, 1] ++ List.replicate 17 0, 1, 2⟩ ∧
      value r = 999999997000000001 :=
  ⟨⟨[999999999, 1] ++ List.replicate 18 0, 1, 2⟩, ⟨[999999999] ++ List.replicate 19 0, 1, 1⟩,
    ⟨[1, 999999997, 1] ++ List.replicate 17 0, 1, 2⟩, by decide⟩

/-! ## String round trip (C4) -/

/-- C4 (defect in the code): `toString (BigInt ("123456789"))`, whatever the array holds
before the construction.  The loop reads the whole string as bucket 0 and leaves
`i = -9 < posFirstDigit`, so the `if` after the loop extracts once more from the empty
chunk `n.substr (0, 0)`: nothing is stored, `length` becomes 2 and bucket 1 keeps its
uninitialised content `u 1`, which `toString` prints in front of the nine digits. -/
theorem C4_nine_digit_string_gets_second_bucket (u : Nat → Int) :
    ∃ r s, BigInt.ofString (uninitOf u) "123456789" = .ok r ∧
      r = ⟨[123456789, u 1] ++ List.replicate 18 0, 1, 2⟩ ∧
      BigInt.toString r = .ok s ∧ s = BigInt.putLL (u 1) ++ "123456789" ∧
      s ≠ "123456789" := by
  refine ⟨⟨[123456789, u 1] ++ List.replicate 18 0, 1, 2⟩,
    BigInt.putLL (u 1) ++ "123456789", rfl, rfl, rfl, rfl, ?_⟩
  intro h
  have hl := congrArg String.length h
  rw [String.length_append] at hl
  have hp := putLL_length_pos (u 1)
  have h9 : ("123456789" : String).length = 9 := by decide
  omega

/-! ## The order (C5) -/

/-- C5 (defect in the code): `BigInt (2000000001) < BigInt (1000000002)` is `true`.
With equal signs and lengths `operator <` compares the buckets from index 0, the least
significant one, upwards: `content[0] = 1 < 2` decides, although 2000000001 is the
larger number. -/
theorem C5_lt_compares_least_significant_first :
    ∃ a b, BigInt.ofLongLong 2000000001 = .ok a ∧ BigInt.ofLongLong 1000000002 = .ok b ∧
      Valid a ∧ Valid b ∧ value a = 2000000001 ∧ value b = 1000000002 ∧
      BigInt.opLt a b = .ok true ∧ ¬ value a < value b :=
  ⟨⟨[1, 2] ++ List.replicate 18 0, 1, 2⟩, ⟨[2, 1] ++ List.replicate 18 0, 1, 2⟩, by decide⟩

/-! ## Serialisation (C6) -/

/-- C6: for every valid BigNumber, `toString` returns the canonical decimal numeral:
`0` for zero, otherwise an optional `-` (present iff `sign = -1`), the top bucket
without leading zeros and every lower bucket, from the second most significant to the
least, with exactly 9 digits; the output has digits(top) + 9 (length - 1) digits and
reads back as `value a`. -/
theorem C6_toString_canonical (a : BigInt) (h : Valid a) :
    BigInt.toString a = .ok (canonicalNumeral a) ∧
    (a.length = 0 → BigInt.toString a = .ok "0") ∧
    (a.length ≠ 0 → BigInt.toString a = .ok ((if a.sign = -1 then "-" else "") ++
        Nat.repr (a.content.getD (a.length - 1) 0).toNat ++
        lowerGroups a.content (a.length - 1))) ∧
    (a.length ≠ 0 → 10 ^ ((Nat.repr (a.content.getD (a.length - 1) 0).toNat).length - 1)
        ≤ (a.content.getD (a.length - 1) 0).toNat) ∧
    (∀ i < a.length - 1, (pad9 (a.content.getD i 0).toNat).length = 9) ∧
    (a.length ≠ 0 → (canonicalNumeral a).length = (if a.sign = -1 then 1 else 0) +
        (Nat.repr (a.content.getD (a.length - 1) 0).toNat).length + 9 * (a.length - 1)) ∧
    parseDecimal (canonicalNumeral a) = some (value a) := by
  obtain ⟨hcl, hlen, hsign, hzero, hrange, htop, -⟩ := h
  rcases Nat.eq_zero_or_pos a.length with hl | hl
  · have hs : a.sign = 0 := hzero.mpr hl
    have h1 : BigInt.toString a = .ok "0" := by unfold BigInt.toString; rw [if_pos hl]
    have h2 : canonicalNumeral a = "0" := by unfold canonicalNumeral; rw [if_pos hl]
    refine ⟨by rw [h1, h2], fun _ => h1, fun h => absurd hl h, fun h => absurd hl h,
      fun i hi => by omega, fun h => absurd hl h, ?_⟩
    rw [h2]
    unfold value
    rw [hs, Int.zero_mul]
    decide
  · have hl0 : a.length ≠ 0 := by omega
    have hlow : ∀ i < a.length - 1,
        0 ≤ a.content.getD i 0 ∧ a.content.getD i 0 < BUCKET_LIMIT :=
      fun i hi => hrange i (by omega)
    have ht := hrange (a.length - 1) (by omega)
    have ht0 := htop hl0
    obtain ⟨t, htt⟩ := Int.eq_ofNat_of_zero_le ht.1
    have htpos : 0 < t := by
      rcases Nat.eq_zero_or_pos t with h | h
      · rw [h] at htt; exact absurd htt ht0
      · exact h
    obtain ⟨rne, rdig, rval, rlen⟩ := repr_decimal t
    obtain ⟨ldig, llen, lval⟩ := lowerGroups_decimal a.content (a.length - 1) hlow
    have hcan : canonicalNumeral a = (if a.sign = -1 then "-" else "") ++
        Nat.repr (a.content.getD (a.length - 1) 0).toNat ++
        lowerGroups a.content (a.length - 1) := by
      unfold canonicalNumeral; rw [if_neg hl0]
    have hstr : BigInt.toString a = .ok (canonicalNumeral a) := by
      rw [hcan]
      unfold BigInt.toString
      rw [if_neg hl0, rd_ok _ _ (by omega)]
      show BigInt.toStringLoop _ _ _ = _
      rw [toStringLoop_eq _ _ _ (by omega) hlow, htt, putLL_nonneg, Int.toNat_ofNat]
    have hmag : magnitude a.content a.length
        = ((digitsVal ((Nat.repr t).data ++ (lowerGroups a.content (a.length - 1)).data) : Nat)
            : Int) := by
      obtain ⟨k, hk⟩ : ∃ k, a.length = k + 1 := ⟨a.length - 1, by omega⟩
      rw [digitsVal_append, rval, llen]
      rw [hk] at lval htt ⊢
      simp only [Nat.add_sub_cancel] at lval htt ⊢
      show magnitude a.content k + a.content.getD k 0 * 10 ^ (9 * k) = _
      rw [htt, ← lval]
      push_cast
      ring
    have hbody : parseDigits ((Nat.repr t).data ++ (lowerGroups a.content (a.length - 1)).data)
        = some (digitsVal ((Nat.repr t).data ++ (lowerGroups a.content (a.length - 1)).data)) := by
      apply parseDigits_of_digits
      · intro hnil
        exact rne (List.append_eq_nil.mp hnil).1
      · intro c hc
        rcases List.mem_append.mp hc with hc | hc
        · exact rdig c hc
        · exact ldig c hc
    refine ⟨hstr, fun h => absurd h hl0, fun _ => by rw [hstr, hcan], fun _ => ?_,
      fun i hi => pad9_length _ ?_, fun _ => ?_, ?_⟩
    · rw [htt, Int.toNat_ofNat]
      have hlog := rlen (Nat.log 10 t) (Nat.lt_pow_succ_log_self (by norm_num) t)
        (Or.inr (Nat.pow_log_le_self 10 (by omega)))
      rw [hlog, Nat.add_sub_cancel]
      exact Nat.pow_log_le_self 10 (by omega)
    · have := hlow i hi
      unfold BUCKET_LIMIT at this
      omega
    · rw [hcan, String.length_append, String.length_append]
      have : (lowerGroups a.content (a.length - 1)).length = 9 * (a.length - 1) := llen
      rw [this]
      split_ifs <;> rfl
    · rw [hcan, htt, Int.toNat_ofNat]
      unfold value
      rw [hmag]
      rcases hsign with hs | hs | hs
      · rw [if_pos hs, hs]
        have hdata : ("-" ++ Nat.repr t ++ lowerGroups a.content (a.length - 1)).data
            = '-' :: ((Nat.repr t).data ++ (lowerGroups a.content (a.length - 1)).data) := by
          rw [String.data_append, String.data_append]; rfl
        unfold parseDecimal
        rw [hdata, List.head?_cons, if_pos rfl, List.tail_cons, hbody]
        simp
      · exact absurd (hzero.mp hs) hl0
      · rw [if_neg (by rw [hs]; decide), hs]
        have hdata : ("" ++ Nat.repr t ++ lowerGroups a.content (a.length - 1)).data
            = (Nat.repr t).data ++ (lowerGroups a.content (a.length - 1)).data := by
          rw [String.data_append, String.data_append]; rfl
        obtain ⟨d, ds, hds⟩ := List.exists_cons_of_ne_nil rne
        have hdd : d.isDigit = true := rdig d (by rw [hds]; exact List.mem_cons_self _ _)
        have hdm : d ≠ '-' := by
          rintro rfl
          exact absurd hdd (by decide)
        have hhead : ((Nat.repr t).data ++ (lowerGroups a.content (a.length - 1)).data).head?
            ≠ some '-' := by
          rw [hds]
          simpa using hdm
        unfold parseDecimal
        rw [hdata, if_neg hhead, hbody]
        simp

/-- C6 (witness): the valid BigNumber -123000000005, with the bucket 5 under the top
bucket 123. -/
theorem C6_toString_canonical_witness :
    Valid sampleNegative ∧ BigInt.toString sampleNegative = .ok "-123000000005" ∧
      parseDecimal "-123000000005" = some (value sampleNegative) :=
  ⟨by decide, (C6_toString_canonical sampleNegative (by decide)).1,
    (C6_toString_canonical sampleNegative (by decide)).2.2.2.2.2.2⟩

/-! ## Different-sign subtraction (C7) -/

/-- C7 (defect in the code): `BigInt (-3) - BigInt (5)`.  The condition `n.sign = -1` of
the different-sign branch is an assignment, so the subtrahend always gets sign 1 and
the call computes `a + b`: the result is 2, while `a + neg b` is -8 and `==` of the
two is `false`. -/
theorem C7_sub_different_sign_does_not_negate :
    ∃ a b r s, BigInt.ofLongLong (-3) = .ok a ∧ BigInt.ofLongLong 5 = .ok b ∧
      Valid a ∧ Valid b ∧ a.sign ≠ b.sign ∧
      BigInt.opSub 3 a b = .ok r ∧ BigInt.opAdd 3 a (neg b) = .ok s ∧
      value r.ret = 2 ∧ value s.ret = -8 ∧ value a - value b = -8 ∧
      BigInt.opEq r.ret s.ret = .ok false :=
  ⟨⟨[3] ++ List.replicate 19 0, -1, 1⟩, ⟨[5] ++ List.replicate 19 0, 1, 1⟩,
    ⟨⟨[3] ++ List.replicate 19 0, -1, 1⟩, ⟨[2] ++ List.replicate 19 0, 1, 1⟩⟩,
    ⟨⟨[3] ++ List.replicate 19 0, -1, 1⟩, ⟨[8] ++ List.replicate 19 0, -1, 1⟩⟩,
    by decide⟩

/-! ## Construction from a native integer (C8) -/

/-- C8 (defect in the code): `BigInt (-9223372036854775808)`.  `n = 0 - n` wraps back to
the minimum, the loop `n > 0` does not run, and the object has sign -1 with no bucket:
it is not a valid BigNumber and stands for 0. -/
theorem C8_ofLongLong_minimum :
    ∃ r, BigInt.ofLongLong (-9223372036854775808) = .ok r ∧
      r = ⟨List.replicate 20 0, -1, 0⟩ ∧ ¬ Valid r ∧ value r = 0 ∧
      BigInt.toString r = .ok "0" :=
  ⟨⟨List.replicate 20 0, -1, 0⟩, by decide⟩

/-! ## Multiplication by a native integer (C9) -/

/-- C9: for every valid BigNumber `a` and every `int n` other than -2^31 whose product
with `a` needs at most 20 buckets, `a * n` returns (no access leaves the array) an
object that stands for `value a * n`; it is the canonical zero when `a` is zero or
`n = 0`, and otherwise its sign is 1 or -1, positive iff the signs of `a` and `n`
match. -/
theorem C9_opMulInt_exact (a : BigInt) (n : Int) (ha : Valid a)
    (hn1 : -(2 ^ 31) < n) (hn2 : n < 2 ^ 31)
    (hfit : |value a * n| < 10 ^ (9 * MAX)) :
    ∃ r, BigInt.opMulInt a n = .ok r ∧ value r = value a * n ∧
      (a.length = 0 ∨ n = 0 → r = ⟨zeroContent, 0, 0⟩) ∧
      (a.length ≠ 0 → n ≠ 0 → (r.sign = 1 ∨ r.sign = -1) ∧
        (r.sign = 1 ↔ (a.sign = 1 ∧ 0 < n) ∨ (a.sign = -1 ∧ n < 0))) := by
  obtain ⟨hcl, hlen, hsign, hzero, hrange, htop, -⟩ := ha
  by_cases hz : n = 0 ∨ a.length = 0
  · refine ⟨⟨zeroContent, 0, 0⟩, ?_, ?_, fun _ => rfl, ?_⟩
    · unfold BigInt.opMulInt
      rw [if_pos hz]
      rfl
    · rcases hz with h | h
      · rw [h, mul_zero]; rfl
      · unfold value
        rw [hzero.mpr h, zero_mul, zero_mul]; exact (Int.zero_mul n).symm
    · intro h1 h2
      rcases hz with h | h
      · exact absurd h h2
      · exact absurd h h1
  · have hn0 : n ≠ 0 := fun h => hz (Or.inl h)
    have hl0 : a.length ≠ 0 := fun h => hz (Or.inr h)
    obtain ⟨m, hm, hm0, hm1, hmabs⟩ : ∃ m : Int,
        (if n < 0 then wrapI32 (n * -1) else n) = m ∧ 0 < m ∧ m < 2 ^ 31 ∧ |n| = m := by
      rcases lt_or_gt_of_ne hn0 with h | h
      · refine ⟨-n, ?_, by omega, by omega, abs_of_neg h⟩
        rw [if_pos h, wrapI32_id _ (by omega) (by omega)]; ring
      · exact ⟨n, by rw [if_neg (by omega)], by omega, hn2, abs_of_pos h⟩
    unfold BigInt.opMulInt
    rw [if_neg hz]
    simp only [hm]
    have hr : ∀ j < 0 + a.length,
        0 ≤ a.content.getD j 0 ∧ a.content.getD j 0 < 1000000000 :=
      fun j hj => hrange j (by omega)
    obtain ⟨c2, carry2, hloop, hcl2, hc0, -, hlow, -, hmag⟩ :=
      mulLoop_inv a.content m hm1 a.length 0 a.content 0 (by omega) hr
        ⟨rfl, le_refl _, hm0, fun j hj => by omega, fun _ _ => rfl, by simp [magnitude]⟩
    rw [Nat.zero_add] at hlow hmag
    rw [hloop]
    simp only [ok_bind]
    have hM0 : 0 ≤ magnitude a.content a.length :=
      magnitude_nonneg _ _ (fun j hj => (hrange j hj).1)
    have hM2 : 0 ≤ magnitude c2 a.length := magnitude_nonneg _ _ (fun j hj => (hlow j hj).1)
    have hs1 : a.sign = 1 ∨ a.sign = -1 := by
      rcases hsign with h | h | h
      · exact Or.inr h
      · exact absurd (hzero.mp h) hl0
      · exact Or.inl h
    obtain ⟨sg, hsg, hsg1, hsg2, hsg3⟩ : ∃ sg : Int,
        (if n > 0 ∧ a.sign = 1 ∨ n < 0 ∧ a.sign = -1 then (1 : Int) else -1) = sg ∧
        (sg = 1 ∨ sg = -1) ∧ (sg = 1 ↔ a.sign = 1 ∧ 0 < n ∨ a.sign = -1 ∧ n < 0) ∧
        sg * m = a.sign * n := by
      rcases lt_or_gt_of_ne hn0 with h | h
      · have hmn : m = -n := by rw [← hmabs]; exact abs_of_neg h
        rcases hs1 with hs | hs
        · refine ⟨-1, by rw [if_neg (by omega)], Or.inr rfl, ?_, by rw [hs, hmn]; ring⟩
          constructor
          · intro h'; omega
          · intro h'; omega
        · refine ⟨1, by rw [if_pos (Or.inr ⟨h, hs⟩)], Or.inl rfl, ?_, by rw [hs, hmn]; ring⟩
          exact ⟨fun _ => Or.inr ⟨hs, h⟩, fun _ => rfl⟩
      · have hmn : m = n := by rw [← hmabs]; exact abs_of_pos h
        rcases hs1 with hs | hs
        · refine ⟨1, by rw [if_pos (Or.inl ⟨h, hs⟩)], Or.inl rfl, ?_, by rw [hs, hmn]⟩
          exact ⟨fun _ => Or.inl ⟨hs, h⟩, fun _ => rfl⟩
        · refine ⟨-1, by rw [if_neg (by omega)], Or.inr rfl, ?_, by rw [hs, hmn]⟩
          constructor
          · intro h'; omega
          · intro h'; omega
    rw [hsg]
    have hval : ∀ M : Int, M = m * magnitude a.content a.length →
        sg * M = a.sign * magnitude a.content a.length * n := by
      intro M hM
      rw [hM]
      linear_combination (magnitude a.content a.length) * hsg3
    have habs : |value a * n| = m * magnitude a.content a.length := by
      unfold value
      rw [abs_mul, abs_mul, hmabs, abs_of_nonneg hM0]
      rcases hs1 with hs | hs <;> rw [hs] <;> simp <;> ring
    by_cases hcar : carry2 > 0
    · have hL : a.length < MAX := by
        rcases Nat.lt_or_ge a.length MAX with h | h
        · exact h
        · exfalso
          have hLe : a.length = MAX := by omega
          rw [habs, ← hmag, hLe] at hfit
          have hP : (0 : Int) < 10 ^ (9 * MAX) := by positivity
          rw [hLe] at hM2
          nlinarith
      rw [if_pos hcar, wr_ok _ _ _ (by omega), ok_bind]
      refine ⟨_, rfl, ?_, fun h => ?_, fun _ _ => ⟨hsg1, hsg2⟩⟩
      · have hw : wrapUShort (a.length + 1) = a.length + 1 := by
          unfold wrapUShort MAX at *; omega
        unfold value
        show sg * magnitude (c2.set a.length carry2) (wrapUShort (a.length + 1)) = _
        rw [hw]
        show sg * (magnitude (c2.set a.length carry2) a.length
          + (c2.set a.length carry2).getD a.length 0 * 10 ^ (9 * a.length)) = _
        rw [magnitude_set_ge _ _ _ _ (le_refl _), getD_set_eq _ _ _ (by omega)]
        exact hval _ hmag
      · rcases h with h | h
        · exact absurd h hl0
        · exact absurd h hn0
    · rw [if_neg hcar]
      have hc00 : carry2 = 0 := by omega
      rw [hc00, zero_mul, add_zero] at hmag
      refine ⟨_, rfl, ?_, fun h => ?_, fun _ _ => ⟨hsg1, hsg2⟩⟩
      · unfold value
        exact hval _ hmag
      · rcases h with h | h
        · exact absurd h hl0
        · exact absurd h hn0

/-- C9 (witness): -123000000005 times -7. -/
theorem C9_opMulInt_exact_witness :
    Valid sampleNegative ∧ -(2 ^ 31) < (-7 : Int) ∧ (-7 : Int) < 2 ^ 31 ∧
      |value sampleNegative * (-7)| < 10 ^ (9 * MAX) ∧
      ∃ r, BigInt.opMulInt sampleNegative (-7) = .ok r ∧
        value r = value sampleNegative * (-7) ∧
        (sampleNegative.length = 0 ∨ (-7 : Int) = 0 → r = ⟨zeroContent, 0, 0⟩) ∧
        (sampleNegative.length ≠ 0 → (-7 : Int) ≠ 0 → (r.sign = 1 ∨ r.sign = -1) ∧
          (r.sign = 1 ↔ (sampleNegative.sign = 1 ∧ 0 < (-7 : Int)) ∨
            (sampleNegative.sign = -1 ∧ (-7 : Int) < 0))) :=
  have hfit : |value sampleNegative * (-7)| < 10 ^ (9 * MAX) := by
    rw [show value sampleNegative = -123000000005 by decide]
    norm_num [MAX]
  ⟨by decide, by decide, by decide, hfit,
    C9_opMulInt_exact sampleNegative (-7) (by decide) (by decide) (by decide) hfit⟩

/-! ## Commutativity of addition (C10) -/

/-- C10 (defect in the code): with `a = BigInt (999999999999999999)` and
`b = BigInt (1)`, `(a + b) == (b + a)` is `false`.  The final carry is stored at the
index `length` of the left operand (the defect of C1): `a + b` leaves bucket 1 at 0,
`b + a` overwrites bucket 1 with the carry, and neither has the third bucket. -/
theorem C10_add_not_commutative :
    ∃ a b r s, BigInt.ofLongLong 999999999999999999 = .ok a ∧ BigInt.ofLongLong 1 = .ok b ∧
      Valid a ∧ Valid b ∧ value a + value b = 10 ^ 18 ∧
      BigInt.opAdd 3 a b = .ok r ∧ BigInt.opAdd 3 b a = .ok s ∧
      r.ret = ⟨[0, 0, 1] ++ List.replicate 17 0, 1, 2⟩ ∧
      s.ret = ⟨[0, 1] ++ List.replicate 18 0, 1, 2⟩ ∧
      BigInt.opEq r.ret s.ret = .ok false :=
  ⟨⟨[999999999, 999999999] ++ List.replicate 18 0, 1, 2⟩, ⟨[1] ++ List.replicate 19 0, 1, 1⟩,
    ⟨⟨[999999999, 999999999] ++ List.replicate 18 0, 1, 3⟩,
      ⟨[0, 0, 1] ++ List.replicate 17 0, 1, 2⟩⟩,
    ⟨⟨[1] ++ List.replicate 19 0, 1, 2⟩, ⟨[0, 1] ++ List.replicate 18 0, 1, 2⟩⟩,
    by decide⟩

/-! ## Additive inverse (C11) -/

/-- C11: for every valid BigNumber `a`, `a - a` returns the canonical zero: sign 0,
length 0 (the object `BigInt (0)`), and `(a - a) == BigInt (0)` is `true`. -/
theorem C11_sub_self_is_canonical_zero (a : BigInt) (h : Valid a) :
    ∃ r z, BigInt.opSub 3 a a = .ok r ∧ r.ret.sign = 0 ∧ r.ret.length = 0 ∧
      BigInt.ofLongLong 0 = .ok z ∧ r.ret = z ∧ BigInt.opEq r.ret z = .ok true := by
  obtain ⟨hcl, hlen, hsign, -, -, -, -⟩ := h
  have hb : a.length ≤ a.content.length := by omega
  obtain ⟨m2, hloop⟩ := subLoopSwapped_self a.content a.length 0 a.content (by omega) rfl
    (fun _ _ => rfl)
  have hsame : BigInt.subSameSign a a = .ok ⟨zeroContent, 0, 0⟩ := by
    unfold BigInt.subSameSign
    rw [if_neg (by omega), opGt_self a hsign hb]
    simp only [ok_bind]
    rw [hloop]
    rfl
  have hz : BigInt.opEq ⟨zeroContent, 0, 0⟩ ⟨zeroContent, 0, 0⟩ = .ok true := by decide
  refine ⟨⟨a, ⟨zeroContent, 0, 0⟩⟩, ⟨zeroContent, 0, 0⟩, ?_, rfl, rfl, rfl, rfl, hz⟩
  rw [BigInt.opSub, if_pos rfl, hsame]
  rfl

/-- C11 (witness): -123000000005 minus itself. -/
theorem C11_sub_self_is_canonical_zero_witness :
    Valid sampleNegative ∧
      ∃ r z, BigInt.opSub 3 sampleNegative sampleNegative = .ok r ∧ r.ret.sign = 0 ∧
        r.ret.length = 0 ∧ BigInt.ofLongLong 0 = .ok z ∧ r.ret = z ∧
        BigInt.opEq r.ret z = .ok true :=
  ⟨by decide, C11_sub_self_is_canonical_zero sampleNegative (by decide)⟩

/-! ## Trichotomy (C12) -/

/-- C12: for all BigNumbers `a` and `b` of the data model (an array of `MAX` buckets of
which at most `MAX` are used; any bucket contents) with signs in {-1, 0, 1}, the three
operators return and exactly one of `a < b`, `a == b`, `a > b` is `true`, where `>` is
the negation of `<=` and `<=` is `<` or `==`.  Of the sign and the length of `b`
nothing is needed. -/
theorem C12_trichotomy (a b : BigInt)
    (hca : a.content.length = MAX) (hcb : b.content.length = MAX) (hla : a.length ≤ MAX)
    (hsa : a.sign = -1 ∨ a.sign = 0 ∨ a.sign = 1) :
    ∃ l e g, BigInt.opLt a b = .ok l ∧ BigInt.opEq a b = .ok e ∧ BigInt.opGt a b = .ok g ∧
      ((l = true ∧ e = false ∧ g = false) ∨ (l = false ∧ e = true ∧ g = false) ∨
        (l = false ∧ e = false ∧ g = true)) := by
  have key : ∃ l e, BigInt.opLt a b = .ok l ∧ BigInt.opEq a b = .ok e ∧
      (l = true → e = false) := by
    by_cases h : a.sign = b.sign
    · rw [opLt_equal_signs a b hsa h]
      by_cases hl : a.length = b.length
      · have he : BigInt.opEq a b = BigInt.eqLoop a.content b.content a.length 0 := by
          unfold BigInt.opEq
          rw [if_neg (fun h2 => h2 h), if_neg (fun h2 => h2 hl)]
        rw [he]
        obtain ⟨l, e, h1, h2, h3⟩ := lt_eq_loops a.content b.content (decide (a.sign = 1))
          a.length 0 (by omega) (by omega)
        by_cases h0 : a.sign = 0
        · rw [if_pos h0]
          exact ⟨false, e, rfl, h2, fun h7 => absurd h7 (by decide)⟩
        · rw [if_neg h0, if_neg (show ¬ a.length < b.length by omega),
            if_neg (show ¬ a.length > b.length by omega)]
          exact ⟨l, e, h1, h2, h3⟩
      · have he : BigInt.opEq a b = .ok false := by
          unfold BigInt.opEq
          rw [if_neg (fun h2 => h2 h), if_pos hl]
        rw [he]
        by_cases h0 : a.sign = 0
        · rw [if_pos h0]
          exact ⟨false, false, rfl, rfl, fun _ => rfl⟩
        · rw [if_neg h0]
          rcases Nat.lt_or_ge a.length b.length with h1 | h1
          · rw [if_pos h1]
            exact ⟨_, false, rfl, rfl, fun _ => rfl⟩
          · rw [if_neg (show ¬ a.length < b.length by omega),
              if_pos (show a.length > b.length by omega)]
            exact ⟨_, false, rfl, rfl, fun _ => rfl⟩
    · have he : BigInt.opEq a b = .ok false := by
        unfold BigInt.opEq
        rw [if_pos h]
      rw [he]
      unfold BigInt.opLt
      rcases lt_or_gt_of_ne h with h1 | h1
      · rw [if_pos h1]
        exact ⟨true, false, rfl, rfl, fun _ => rfl⟩
      · rw [if_neg (show ¬ a.sign < b.sign by omega), if_pos h1]
        exact ⟨false, false, rfl, rfl, fun _ => rfl⟩
  obtain ⟨l, e, h1, h2, h3⟩ := key
  refine ⟨l, e, !(l || e), h1, h2, opGt_of a b l e h1 h2, ?_⟩
  cases l
  · cases e
    · exact Or.inr (Or.inr ⟨rfl, rfl, rfl⟩)
    · exact Or.inr (Or.inl ⟨rfl, rfl, rfl⟩)
  · rw [h3 rfl]
    exact Or.inl ⟨rfl, rfl, rfl⟩

/-- C12 (witness): -123000000005 against itself. -/
theorem C12_trichotomy_witness :
    sampleNegative.content.length = MAX ∧ sampleNegative.length ≤ MAX ∧
      (sampleNegative.sign = -1 ∨ sampleNegative.sign = 0 ∨ sampleNegative.sign = 1) ∧
      ∃ l e g, BigInt.opLt sampleNegative sampleNegative = .ok l ∧
        BigInt.opEq sampleNegative sampleNegative = .ok e ∧
        BigInt.opGt sampleNegative sampleNegative = .ok g ∧
        ((l = true ∧ e = false ∧ g = false) ∨ (l = false ∧ e = true ∧ g = false) ∨
          (l = false ∧ e = false ∧ g = true)) :=
  ⟨by decide, by decide, by decide,
    C12_trichotomy sampleNegative sampleNegative (by decide) (by decide) (by decide)
      (by decide)⟩

/-! ## Operands of the arithmetic operators (C13) -/

/-- C13 (defect in the code): the operators do modify their left operand.  After
`a + b` with `a = BigInt (999999999)` and `b = BigInt (1)` the object `a` has length 2
instead of 1, and after `a - c` with `c = BigInt (-1)`, which delegates to `a + 1`, it
has length 2 as well: `num.content[length ++]` increments the member of `*this`. -/
theorem C13_add_changes_left_operand :
    ∃ a b c r s, BigInt.ofLongLong 999999999 = .ok a ∧ BigInt.ofLongLong 1 = .ok b ∧
      BigInt.ofLongLong (-1) = .ok c ∧ Valid a ∧ Valid b ∧ Valid c ∧ a.length = 1 ∧
      BigInt.opAdd 3 a b = .ok r ∧ r.self ≠ a ∧ r.self.length = 2 ∧
      r.self.sign = a.sign ∧ r.self.content = a.content ∧
      BigInt.opSub 3 a c = .ok s ∧ s.self ≠ a ∧ s.self.length = 2 :=
  ⟨⟨[999999999] ++ List.replicate 19 0, 1, 1⟩, ⟨[1] ++ List.replicate 19 0, 1, 1⟩,
    ⟨[1] ++ List.replicate 19 0, -1, 1⟩,
    ⟨⟨[999999999] ++ List.replicate 19 0, 1, 2⟩, ⟨[0, 1] ++ List.replicate 18 0, 1, 1⟩⟩,
    ⟨⟨[999999999] ++ List.replicate 19 0, 1, 2⟩, ⟨[0, 1] ++ List.replicate 18 0, 1, 1⟩⟩,
    by decide⟩

/-! ## The sum of the demonstration (C14) -/

/-- C14 (the claim's string is not the sum): with the array zeroed before each
construction the code returns `"9999999999123469134802368"`, which differs from
`"9999999999135802468036368"`. -/
theorem C14_claimed_sum_is_not_returned :
    (do
      let a ← BigInt.ofString (uninitOf fun _ => 0) "9999999999123456789123456"
      let b ← BigInt.ofString (uninitOf fun _ => 0) "12345678912"
      let r ← BigInt.opAdd 3 a b
      BigInt.toString r.ret) ≠ .ok "9999999999135802468036368" := by
  decide

/-- C14 (amended): whatever the arrays hold before the constructions,
`toString (BigInt ("9999999999123456789123456") + BigInt ("12345678912"))` is
`"9999999999123469134802368"`, the numeral of the exact sum. -/
theorem C14_concrete_sum (u v : Nat → Int) :
    (do
      let a ← BigInt.ofString (uninitOf u) "9999999999123456789123456"
      let b ← BigInt.ofString (uninitOf v) "12345678912"
      let r ← BigInt.opAdd 3 a b
      BigInt.toString r.ret) = .ok "9999999999123469134802368" ∧
    Nat.repr (9999999999123456789123456 + 12345678912) = "9999999999123469134802368" := by
  rw [ofString_first_operand u, ofString_second_operand v]
  exact ⟨by decide, by decide⟩

/-! ## The product of the demonstration (C15) -/

/-- C15: whatever the arrays hold before the constructions,
`toString (BigInt ("9999999999123456789123456") * BigInt ("12345678912"))` is the
decimal numeral of the exact product 9999999999123456789123456 * 12345678912. -/
theorem C15_concrete_product (u v : Nat → Int) :
    (do
      let a ← BigInt.ofString (uninitOf u) "9999999999123456789123456"
      let b ← BigInt.ofString (uninitOf v) "12345678912"
      let r ← BigInt.opMul 3 a b
      BigInt.toString r) = .ok (Nat.repr (9999999999123456789123456 * 12345678912)) ∧
    Nat.repr (9999999999123456789123456 * 12345678912)
      = "123456789109178478966024681703759872" := by
  rw [ofString_first_operand u, ofString_second_operand v]
  exact ⟨by decide, by decide⟩

/-! ## Malformed strings (C16) -/

/-- C16 (the claim fails): the malformed strings `-0`, the empty string, `12a4` and
`0123` are not rejected.  `BigInt ("-0")` is returned with sign -1, length 1 and bucket
0 (an invalid BigNumber, written `-0`); the empty string gives sign 1 and one bucket
holding what the array held; `12a4` gives 12; `0123` gives zero. -/
theorem C16_malformed_strings_are_accepted :
    BigInt.ofString (uninitOf fun _ => 0) "-0" = .ok ⟨List.replicate 20 0, -1, 1⟩ ∧
      ¬ Valid ⟨List.replicate 20 0, -1, 1⟩ ∧
      BigInt.toString ⟨List.replicate 20 0, -1, 1⟩ = .ok "-0" ∧
      BigInt.ofString (uninitOf fun _ => 7) "" = .ok ⟨[7] ++ List.replicate 19 0, 1, 1⟩ ∧
      BigInt.ofString (uninitOf fun _ => 0) "12a4" = .ok ⟨[12] ++ List.replicate 19 0, 1, 1⟩ ∧
      BigInt.ofString (uninitOf fun _ => 0) "0123" = .ok ⟨List.replicate 20 0, 0, 0⟩ := by
  decide

/-- C16 (amended): the constructor `BigInt (string)` validates nothing.  For every
string of fewer than 180 characters, malformed or not, and whatever the array held
before, it returns an object instead of failing; for a string that starts with `0`
(a leading zero followed by anything) the object is the canonical zero. -/
theorem C16_strings_are_never_rejected (u : Nat → Int) (s : String) (h : s.length < 180) :
    ∃ r, BigInt.ofString (uninitOf u) s = .ok r ∧
      (s.data.headD (Char.ofNat 0) = '0' → r = ⟨zeroContent, 0, 0⟩) := by
  have hlen : s.data.length ≤ 179 := by
    have : s.length = s.data.length := rfl
    omega
  unfold BigInt.ofString
  simp only []
  by_cases h0 : s.data.headD (Char.ofNat 0) = '0'
  · rw [if_pos h0]
    exact ⟨_, rfl, fun _ => rfl⟩
  · rw [if_neg h0]
    have hi0 : wrapI32 ((s.data.length : Int) - BUCKET_NUM_DIGITS) = (s.data.length : Int) - 9 := by
      unfold BUCKET_NUM_DIGITS
      exact wrapI32_id _ (by omega) (by omega)
    rw [hi0]
    obtain ⟨p, hp, hp0, hp1⟩ : ∃ p : Int,
        (if s.data.headD (Char.ofNat 0) = '-' then (1 : Int) else 0) = p ∧ 0 ≤ p ∧
        p ≤ s.data.length := by
      by_cases hm : s.data.headD (Char.ofNat 0) = '-'
      · refine ⟨1, by rw [if_pos hm], by omega, ?_⟩
        cases hd : s.data with
        | nil => rw [hd] at hm; exact absurd hm (by decide)
        | cons x xs => simp
      · exact ⟨0, by rw [if_neg hm], le_refl _, by omega⟩
    rw [hp]
    obtain ⟨i2, st2, c2, L2, hloop, hc2, hL2, hi2⟩ :=
      ofStringLoop_ok s.data p hp0 hlen s.data.length ((s.data.length : Int) - 9)
        BigInt.SStream.fresh (uninitOf u) 0 (by omega) (by omega) (by omega)
        (uninitOf_length u)
    rw [hloop]
    simp only [ok_bind]
    rw [if_pos hi2]
    obtain ⟨chunk, hchunk⟩ := substr_ok s.data p (BUCKET_NUM_DIGITS - p + i2) hp0 hp1
    obtain ⟨st3, c3, hex, hc3⟩ := extractBucket_ok (st2.put chunk) c2 L2 (by omega)
    have hw : wrapUShort (L2 + 1) = L2 + 1 := by unfold wrapUShort; omega
    rw [hchunk]
    simp only [ok_bind]
    rw [hex]
    simp only [ok_bind, pure, Except.pure]
    unfold memsetFrom
    rw [if_pos (by rw [hw, hc3, hc2]; omega)]
    exact ⟨_, rfl, fun hz => absurd hz h0⟩

/-- C16 (witness): the malformed string `12a4`. -/
theorem C16_strings_are_never_rejected_witness :
    ("12a4" : String).length < 180 ∧
      ∃ r, BigInt.ofString (uninitOf fun _ => 0) "12a4" = .ok r ∧
        (("12a4" : String).data.headD (Char.ofNat 0) = '0' → r = ⟨zeroContent, 0, 0⟩) :=
  ⟨by decide, C16_strings_are_never_rejected (fun _ => 0) "12a4" (by decide)⟩

/-! ## Zero products (C17) -/

/-- C17 (defect in the code): `BigInt (0) * BigInt (5)`.  `operator * (BigInt)` ends with
`rs.sign = (sign == n.sign) ? 1 : -1` whatever the product is, so the zero product has
sign -1 (with length 0) and `== BigInt (0)` is `false`; `BigInt (0) * BigInt (0)` has
sign 1. -/
theorem C17_mul_zero_gets_a_sign :
    ∃ z b r q, BigInt.ofLongLong 0 = .ok z ∧ BigInt.ofLongLong 5 = .ok b ∧
      Valid z ∧ Valid b ∧ value z = 0 ∧
      BigInt.opMul 3 z b = .ok r ∧ r.sign = -1 ∧ r.length = 0 ∧ value r = 0 ∧
      BigInt.opEq r z = .ok false ∧
      BigInt.opMul 3 z z = .ok q ∧ q.sign = 1 ∧ q.length = 0 :=
  ⟨⟨List.replicate 20 0, 0, 0⟩, ⟨[5] ++ List.replicate 19 0, 1, 1⟩,
    ⟨List.replicate 20 0, -1, 0⟩, ⟨List.replicate 20 0, 1, 0⟩, by decide⟩

/-! ## The length after a subtraction (C18) -/

/-- C18 (defect in the code): `BigInt (1000000005) - BigInt (1000000003)`.  The loop
subtracts bucket by bucket and `length` is never reduced: the result keeps length 2
with the top bucket 0, and `toString` writes it with leading zeros. -/
theorem C18_sub_keeps_zero_top_bucket :
    ∃ a b r, BigInt.ofLongLong 1000000005 = .ok a ∧ BigInt.ofLongLong 1000000003 = .ok b ∧
      Valid a ∧ Valid b ∧ BigInt.opSub 3 a b = .ok r ∧
      r.ret = ⟨[2, 0] ++ List.replicate 18 0, 1, 2⟩ ∧
      r.ret.length ≠ 0 ∧ r.ret.content.getD (r.ret.length - 1) 0 = 0 ∧
      BigInt.toString r.ret = .ok "0000000002" :=
  ⟨⟨[5, 1] ++ List.replicate 18 0, 1, 2⟩, ⟨[3, 1] ++ List.replicate 18 0, 1, 2⟩,
    ⟨⟨[5, 1] ++ List.replicate 18 0, 1, 2⟩, ⟨[2, 0] ++ List.replicate 18 0, 1, 2⟩⟩,
    by decide⟩

/-! ## The buckets after a multiplication by a native integer (C19) -/

/-- C19 (defect in the code): `BigInt (999999999) * 2000000000`.  After the loop the
carry is 1999999998, and `if (carry > 0) num.content[num.length ++] = carry` stores it
in one bucket: bucket 1 of the result is not below 10^9, although the product
1999999998000000000 needs only three buckets. -/
theorem C19_mulInt_stores_large_carry_in_one_bucket :
    ∃ a r, BigInt.ofLongLong 999999999 = .ok a ∧ Valid a ∧
      (0 : Int) < 2000000000 ∧ (2000000000 : Int) < 2 ^ 31 ∧
      value a * 2000000000 = 1999999998000000000 ∧
      BigInt.opMulInt a 2000000000 = .ok r ∧
      r = ⟨[0, 1999999998] ++ List.replicate 18 0, 1, 2⟩ ∧
      ¬ r.content.getD 1 0 ≤ 999999999 :=
  ⟨⟨[999999999] ++ List.replicate 19 0, 1, 1⟩,
    ⟨[0, 1999999998] ++ List.replicate 18 0, 1, 2⟩, by decide⟩

/-! ## Termination of the delegation (C20) -/

/-- C20: for all operands whose sign is -1, 0 or 1 and is 0 exactly when no bucket is
used, `a + b` ends within one delegation and `a - b` within two (budgets 2 and 3, the
call itself included), with a result or at an access outside the array, and a larger
budget never changes the outcome.  Two delegations are reached: `BigInt (-3) -
BigInt (5)` goes through `-` (different signs), `+`, then the same-sign `-`. -/
theorem C20_delegation_is_bounded (a b : BigInt) (ha : SignOK a) (hb : SignOK b) :
    Ends (BigInt.opAdd 2 a b) ∧ Ends (BigInt.opSub 3 a b) ∧
    (∀ j, BigInt.opAdd (2 + j) a b = BigInt.opAdd 2 a b) ∧
    (∀ j, BigInt.opSub (3 + j) a b = BigInt.opSub 3 a b) ∧
    (∃ x y, SignOK x ∧ SignOK y ∧ BigInt.opSub 2 x y = .error .noFuel ∧
      BigInt.opAdd 1 x y = .error .noFuel) := by
  have hb2 : b.length ≠ 0 → b.sign = 1 ∨ b.sign = -1 := by
    intro h
    rcases hb.1 with h1 | h1 | h1
    · exact Or.inr h1
    · exact absurd (hb.2.mp h1) h
    · exact Or.inl h1
  have hadd : Ends (BigInt.opAdd 2 a b) := ends_opAdd_two a b ha hb2
  have hsub : Ends (BigInt.opSub 3 a b) := by
    rw [BigInt.opSub]
    split_ifs
    · exact ends_bind _ _ (ends_subSameSign _ _ ha.1) (fun r => ends_ok _)
    · exact ends_opAdd_two a ⟨b.content, 1, b.length⟩ ha (fun _ => Or.inl rfl)
  refine ⟨hadd, hsub, fuel_add 2 a b (ends_ne_noFuel _ hadd),
    fuel_sub 3 a b (ends_ne_noFuel _ hsub), ?_⟩
  exact ⟨⟨[3] ++ List.replicate 19 0, -1, 1⟩, ⟨[5] ++ List.replicate 19 0, 1, 1⟩, by decide⟩

/-- C20 (witness): `BigInt (-3)` and `BigInt (5)`. -/
theorem C20_delegation_is_bounded_witness :
    SignOK ⟨[3] ++ List.replicate 19 0, -1, 1⟩ ∧ SignOK ⟨[5] ++ List.replicate 19 0, 1, 1⟩ ∧
      Ends (BigInt.opSub 3 ⟨[3] ++ List.replicate 19 0, -1, 1⟩
        ⟨[5] ++ List.replicate 19 0, 1, 1⟩) ∧
      ∀ j, BigInt.opSub (3 + j) ⟨[3] ++ List.replicate 19 0, -1, 1⟩
          ⟨[5] ++ List.replicate 19 0, 1, 1⟩
        = BigInt.opSub 3 ⟨[3] ++ List.replicate 19 0, -1, 1⟩
          ⟨[5] ++ List.replicate 19 0, 1, 1⟩ :=
  ⟨by decide, by decide,
    (C20_delegation_is_bounded ⟨[3] ++ List.replicate 19 0, -1, 1⟩
      ⟨[5] ++ List.replicate 19 0, 1, 1⟩ (by decide) (by decide)).2.1,
    (C20_delegation_is_bounded ⟨[3] ++ List.replicate 19 0, -1, 1⟩
      ⟨[5] ++ List.replicate 19 0, 1, 1⟩ (by decide) (by decide)).2.2.2.1⟩
